import Mathlib

set_option autoImplicit false

/-!
# Verification of the JLCPCB parts-catalog synchronization core

Shallow embedding, in Lean 4, of the parts-catalog subsystem of the
KiCAD-MCP-Server repository:

* `src/python/commands/jlcpcb.py` — `JLCPCBClient`: incremental download
  planner (`_plan_incremental_download`), download executor with disk-space
  preflight (`download_yaqwsx_cache`), atomic manifest rewrite
  (`_save_manifest`), and HMAC-SHA256 request signing
  (`_build_signature_string`, `_sign`).
* `src/python/commands/jlcpcb_parts.py` — `JLCPCBPartsManager`: the local
  SQLite parts store (`import_yaqwsx_cache`, `search_parts`,
  `suggest_alternatives`).

Python values that may be `None` are embedded as `Option`; Python's falsy
fallback `x or y` (which also treats `0` and `""` as falsy) is embedded
explicitly.  SQLite rows are embedded as Lean structures, a table as the
list of its rows in rowid (insertion) order, which is the order an
unordered full-table scan returns.
-/

/-- Python `x or y` for an optional integer `x`: `None` and `0` are falsy. -/
def pyOrInt (x : Option Int) (y : Int) : Int :=
  match x with
  | none => y
  | some v => if v = 0 then y else v

/-- Python `x or ""` for an optional string: `None` (and `""`) fall back to `""`. -/
def pyOrStr (x : Option String) : String :=
  match x with
  | none => ""
  | some s => s

/-- The ASCII whitespace characters stripped by Python's `str.strip()`. -/
def isPySpace (c : Char) : Bool :=
  c = ' ' || c = '\t' || c = '\n' || c = '\r' || c = '\x0b' || c = '\x0c'

/-- Remove leading and trailing characters satisfying `p` (Python `str.strip(chars)`). -/
def stripChars (p : Char → Bool) (s : String) : String :=
  ⟨((s.data.dropWhile p).reverse.dropWhile p).reverse⟩

/-- Python `str.strip()` with no argument: trim ASCII whitespace on both ends. -/
def pyStrip (s : String) : String :=
  stripChars isPySpace s

/-! ## Incremental download planner

Embedding of `JLCPCBClient._plan_incremental_download` and its helper
`JLCPCBClient._normalize_etag` (src/python/commands/jlcpcb.py, lines 54-61
and 202-265).
-/

/-- `normalized.startswith("W/")`, computed on the character list so that it
evaluates by kernel reduction. -/
def startsWithWeakMarker (s : String) : Bool :=
  match s.data with
  | 'W' :: '/' :: _ => true
  | _ => false

/-- `JLCPCBClient._normalize_etag`: `None`/empty gives `""`; otherwise strip
whitespace, drop a weak-validator `W/` marker, and strip surrounding quotes. -/
def normalize_etag (value : Option String) : String :=
  match value with
  | none => ""
  | some v =>
    if v = "" then ""
    else
      let n := pyStrip v
      let n : String := if startsWithWeakMarker n then ⟨n.data.drop 2⟩ else n
      stripChars (fun c => c = '"') n

/-- Remote per-file metadata returned by the archive metadata prober
(`_get_remote_archive_metadata`): `Content-Length`, `ETag`, `Last-Modified`,
each possibly absent. -/
structure RemoteFileMeta where
  size : Option Int
  etag : Option String
  lastModified : Option String
deriving Repr, DecidableEq

/-- A manifest (`previous_files`) entry for one archive part. -/
structure PrevFileMeta where
  etag : Option String
  lastModified : Option String
deriving Repr, DecidableEq

/-- The planner's per-part input: the part's filename, the size of the local
file if it exists (`os.path.exists`/`os.path.getsize`), the freshly probed
remote metadata, and the manifest entry when one is recorded. -/
structure ArchivePartState where
  filename : String
  localSize : Option Int
  remote : RemoteFileMeta
  previous : Option PrevFileMeta
deriving Repr, DecidableEq

/-- `prev_etag = self._normalize_etag(previous.get("etag"))`. -/
def prevEtagOf (p : ArchivePartState) : String :=
  normalize_etag (p.previous.bind (·.etag))

/-- `remote_etag = self._normalize_etag(remote_file.get("etag"))`. -/
def remoteEtagOf (p : ArchivePartState) : String :=
  normalize_etag p.remote.etag

/-- `prev_last_modified = str(previous.get("lastModified") or "").strip()`. -/
def prevLmOf (p : ArchivePartState) : String :=
  pyStrip (pyOrStr (p.previous.bind (·.lastModified)))

/-- `remote_last_modified = str(remote_file.get("lastModified") or "").strip()`. -/
def remoteLmOf (p : ArchivePartState) : String :=
  pyStrip (pyOrStr p.remote.lastModified)

/-- `same_etag`: both normalized tags non-empty and equal. -/
def sameEtagB (p : ArchivePartState) : Bool :=
  prevEtagOf p != "" && remoteEtagOf p != "" && prevEtagOf p == remoteEtagOf p

/-- `same_last_modified`: both stripped values non-empty and equal. -/
def sameLmB (p : ArchivePartState) : Bool :=
  prevLmOf p != "" && remoteLmOf p != "" && prevLmOf p == remoteLmOf p

/-- `remote_size = int(remote_file.get("size", 0) or 0)`. -/
def remoteSizeOf (p : ArchivePartState) : Int :=
  pyOrInt p.remote.size 0

/-- `same_size = local_exists and local_size == remote_size` (a missing local
file has sentinel size `-1`). -/
def sameSizeB (p : ArchivePartState) : Bool :=
  match p.localSize with
  | none => false
  | some s => s == remoteSizeOf p

/-- The planner's per-part decision chain (jlcpcb.py lines 240-253), branch
for branch: a part with no local file is downloaded; a matching change-tag or
last-modified reuses; differing sizes download; equal sizes with differing
recorded tags or timestamps download; otherwise reuse. -/
def shouldRedownload (p : ArchivePartState) : Bool :=
  if p.localSize.isNone then true
  else if sameEtagB p || sameLmB p then false
  else if !sameSizeB p && (remoteEtagOf p != "" || remoteLmOf p != "") then true
  else if !sameSizeB p then true
  else if remoteEtagOf p != "" && prevEtagOf p != "" then !(sameEtagB p)
  else if remoteLmOf p != "" && prevLmOf p != "" then !(sameLmB p)
  else false

/-- The planner's output: `{"partsToDownload", "reusedParts", "totalDownloadBytes"}`. -/
structure DownloadPlan where
  partsToDownload : List String
  reusedParts : List String
  totalDownloadBytes : Int
deriving Repr, DecidableEq

/-- `JLCPCBClient._plan_incremental_download`: iterate the archive part list
in order, classifying each part with `shouldRedownload` and accumulating the
remote sizes of the scheduled parts. -/
def plan_incremental_download : List ArchivePartState → DownloadPlan
  | [] => ⟨[], [], 0⟩
  | p :: rest =>
    let r := plan_incremental_download rest
    if shouldRedownload p then
      ⟨p.filename :: r.partsToDownload, r.reusedParts,
        remoteSizeOf p + r.totalDownloadBytes⟩
    else
      ⟨r.partsToDownload, p.filename :: r.reusedParts, r.totalDownloadBytes⟩

/-- The weakest-signal archive part: the local file exists with size 10, the
remote probe reports size 20 and neither an `ETag` nor a `Last-Modified`, and
the manifest has no entry for the part. -/
def weakSignalPart : ArchivePartState :=
  ⟨"cache.z01", some 10, ⟨some 20, none, none⟩, none⟩

/-! ## Local parts store

Embedding of `JLCPCBPartsManager` (src/python/commands/jlcpcb_parts.py).
A SQLite table is the list of its rows in rowid order, which is the order an
unordered scan visits them; `INSERT OR REPLACE` deletes a conflicting row
and inserts with a fresh rowid, i.e. removes the old row and appends.  The
`price_json` TEXT column is embedded in parsed form (`PriceJson`): the JSON
round-trip `json.dumps`/`json.loads` is the identity on well-formed price
lists, and text that `json.loads` rejects is `PriceJson.invalid`.  JSON
numbers are embedded as exact rationals. -/

/-- One `{qty, price}` object of a price-break list; `price := none` embeds a
missing `"price"` key or a value `float()` rejects (e.g. `null`). -/
structure PriceBreak where
  qty : Int
  price : Option ℚ
deriving Repr, DecidableEq

/-- The parsed content of the `price_json` TEXT column. -/
inductive PriceJson where
  | list (breaks : List PriceBreak)
  | invalid
deriving Repr, DecidableEq

/-- One row of the `components` table (schema at jlcpcb_parts.py lines 55-71). -/
structure Component where
  lcsc : String
  category : String
  subcategory : String
  mfr_part : String
  package : String
  solder_joints : Int
  manufacturer : String
  library_type : String
  description : String
  datasheet : String
  stock : Int
  price_json : PriceJson
  last_updated : Int
deriving Repr, DecidableEq

/-- One row of the `components_fts` full-text index (lines 76-84). -/
structure FtsRow where
  lcsc : String
  description : String
  mfr_part : String
  manufacturer : String
deriving Repr, DecidableEq

/-- The catalog store: the `components` table, the `components_fts` index,
and whether the five secondary indexes of `_create_component_indexes` are
present. -/
structure CatalogDB where
  components : List Component
  fts : List FtsRow
  hasIndexes : Bool
deriving Repr, DecidableEq

/-- A SQLite connection: the committed store plus, when a transaction is
open, the transaction's working copy.  `BEGIN` snapshots the committed
state; `COMMIT` publishes the working copy; `ROLLBACK` discards it.
Statements outside a transaction autocommit. -/
structure Conn where
  committed : CatalogDB
  txn : Option CatalogDB
deriving Repr, DecidableEq

/-- The store a statement on this connection currently sees. -/
def Conn.cur (c : Conn) : CatalogDB :=
  c.txn.getD c.committed

/-- Execute a mutating statement: inside an open transaction it updates the
working copy, otherwise it autocommits. -/
def Conn.applyStmt (c : Conn) (f : CatalogDB → CatalogDB) : Conn :=
  match c.txn with
  | some s => { c with txn := some (f s) }
  | none => { c with committed := f c.committed }

/-- `BEGIN IMMEDIATE` (line 629). -/
def Conn.beginTxn (c : Conn) : Conn :=
  { c with txn := some c.committed }

/-- `self.conn.commit()` (line 742). -/
def Conn.commitTxn (c : Conn) : Conn :=
  { committed := c.cur, txn := none }

/-- `self.conn.rollback()` (line 752). -/
def Conn.rollbackTxn (c : Conn) : Conn :=
  { c with txn := none }

/-- `_drop_component_indexes` (lines 229-234). -/
def dropComponentIndexes (db : CatalogDB) : CatalogDB :=
  { db with hasIndexes := false }

/-- `_create_component_indexes` (lines 214-227). -/
def createComponentIndexes (db : CatalogDB) : CatalogDB :=
  { db with hasIndexes := true }

/-- `DELETE FROM components` (line 633). -/
def deleteAllComponents (db : CatalogDB) : CatalogDB :=
  { db with components := [] }

/-- The `components_fts` row derived from a `components` row. -/
def ftsRowOf (c : Component) : FtsRow :=
  ⟨c.lcsc, c.description, c.mfr_part, c.manufacturer⟩

/-- `INSERT INTO components_fts(components_fts) VALUES('rebuild')` (line
724-726): rebuild the index from the content table. -/
def ftsRebuildAll (db : CatalogDB) : CatalogDB :=
  { db with fts := db.components.map ftsRowOf }

/-- The selective rebuild of the incremental path (lines 729-739): delete the
index rows of touched keys, then re-insert them from the content table. -/
def ftsSelectiveRebuild (touched : List String) (db : CatalogDB) : CatalogDB :=
  { db with fts :=
      db.fts.filter (fun f => !touched.contains f.lcsc)
        ++ (db.components.filter (fun c => touched.contains c.lcsc)).map ftsRowOf }

/-- `INSERT OR REPLACE INTO components`: delete any row with the same primary
key, insert the new row at a fresh (largest) rowid. -/
def upsertComponent (rows : List Component) (c : Component) : List Component :=
  rows.filter (fun r => r.lcsc != c.lcsc) ++ [c]

/-- One row of the source snapshot's `v_components` relation, in the
canonical column generation (`mfr`, `joints`, `last_update`, `basic`,
`preferred`, `price` all present — the first synonym of each logical field,
as resolved by the import's column probing).  SQL `NULL` is `none`. -/
structure SourceRow where
  lcsc : String
  category : Option String
  subcategory : Option String
  mfr : Option String
  package : Option String
  joints : Option Int
  manufacturer : Option String
  basic : Option Int
  preferred : Option Int
  description : Option String
  datasheet : Option String
  stock : Option Int
  price : Option PriceJson
  last_update : Option Int
deriving Repr, DecidableEq

/-- `int(s)` for a decimal digit string. -/
def digitsToNat (l : List Char) : Nat :=
  l.foldl (fun acc c => 10 * acc + (c.toNat - '0'.toNat)) 0

/-- The key normalization of the import loop (lines 641-647): an all-digit
key gains a `C` prefix after integer round-trip (dropping leading zeros);
anything else is kept verbatim. -/
def convertLcsc (s : String) : String :=
  if s != "" && s.data.all (·.isDigit) then "C" ++ toString (digitsToNat s.data)
  else s

/-- SQL `stock > 0` (`NULL` rows are excluded). -/
def stockCond (r : SourceRow) : Bool :=
  match r.stock with
  | some s => decide (0 < s)
  | none => false

/-- SQL `last_update > T` (`NULL` rows are excluded). -/
def sinceCond (t : Int) (r : SourceRow) : Bool :=
  match r.last_update with
  | some l => decide (t < l)
  | none => false

/-- The import's `WHERE` clause: `stock > 0` when `in_stock_only`, and
`last_update > incremental_since` when incremental (lines 449-452, 488-490). -/
def rowMatches (inStockOnly : Bool) (since : Option Int) (r : SourceRow) : Bool :=
  (!inStockOnly || stockCond r)
    && (match since with
        | none => true
        | some t => sinceCond t r)

/-- SQL `MAX(col)` over the collected non-`NULL` values. -/
def listMaxInt : List Int → Option Int
  | [] => none
  | x :: xs =>
    match listMaxInt xs with
    | none => some x
    | some m => some (max x m)

/-- The conversion of one source row to a `components` row (loop body, lines
640-677): `C`-prefix key normalization, `Preferred`/`Basic`/`Extended` from
the tier flags, `or`-fallbacks for `NULL` fields, and `now` for a missing or
zero `last_update`. -/
def convertRow (now : Int) (r : SourceRow) : Component :=
  { lcsc := convertLcsc r.lcsc
    category := pyOrStr r.category
    subcategory := pyOrStr r.subcategory
    mfr_part := pyOrStr r.mfr
    package := pyOrStr r.package
    solder_joints := pyOrInt r.joints 0
    manufacturer := pyOrStr r.manufacturer
    library_type :=
      if pyOrInt r.preferred 0 != 0 then "Preferred"
      else if pyOrInt r.basic 0 != 0 then "Basic"
      else "Extended"
    description := pyOrStr r.description
    datasheet := pyOrStr r.datasheet
    stock := pyOrInt r.stock 0
    price_json := r.price.getD (.list [])
    last_updated := pyOrInt r.last_update now }

/-- The streaming insert loop: upsert each converted row in order and, on the
incremental path, record its key in the `updated_lcsc` temp table (`INSERT OR
IGNORE`: first occurrence wins).  `failAfter = some k` injects the run's
exception after `k` rows have been upserted, modelling a failure at any point
of the batched `executemany` stream; the batching itself does not change the
final store.  An error carries the connection as left by the failing
statement. -/
def insertSourceRows (now : Int) (incremental : Bool) :
    List SourceRow → Option Nat → Conn → List String →
    Except Conn (List String × Conn)
  | _, some 0, c, _ => .error c
  | [], _, c, touched => .ok (touched, c)
  | r :: rest, failAfter, c, touched =>
    let comp := convertRow now r
    let c := c.applyStmt (fun db =>
      { db with components := upsertComponent db.components comp })
    let touched :=
      if incremental && !touched.contains comp.lcsc then touched ++ [comp.lcsc]
      else touched
    insertSourceRows now incremental rest (failAfter.map (· - 1)) c touched

/-- The result dictionary of `import_yaqwsx_cache` (lines 608-612, 744-748). -/
structure ImportResult where
  imported : Nat
  total : Nat
  maxLastUpdate : Option Int
deriving Repr, DecidableEq

/-- `JLCPCBPartsManager.import_yaqwsx_cache` (lines 419-757) on the
`v_components` source path with the canonical column generation: compute the
unfiltered `MAX(last_update)`, count the `WHERE`-matching rows, return early
on an empty incremental run, and otherwise ingest inside one `BEGIN
IMMEDIATE` transaction — full imports drop the secondary indexes and delete
all rows first, then rebuild the full-text index and indexes; an
incremental import selectively rebuilds the full-text rows of touched
keys.  Any
exception recreates the indexes on the open transaction, rolls back, and
re-raises (lines 749-755).  The connection-tuning `PRAGMA`s (lines 623-628)
do not touch the store. -/
def import_yaqwsx_cache (src : List SourceRow) (in_stock_only : Bool)
    (incremental_since : Option Int) (now : Int) (failAfter : Option Nat)
    (conn : Conn) : Except (String × Conn) (ImportResult × Conn) :=
  let sourceMax := listMaxInt (src.filterMap (·.last_update))
  let matching := src.filter (rowMatches in_stock_only incremental_since)
  let total := matching.length
  match incremental_since with
  | some t =>
    if total = 0 then
      .ok (⟨0, 0, some (pyOrInt sourceMax t)⟩, conn)
    else
      let c := conn.beginTxn
      match insertSourceRows now true matching failAfter c [] with
      | .error cerr =>
        .error ("import failure", (cerr.applyStmt createComponentIndexes).rollbackTxn)
      | .ok (touched, c) =>
        let c := c.applyStmt (ftsSelectiveRebuild touched)
        let c := c.commitTxn
        .ok (⟨total, total, sourceMax⟩, c)
  | none =>
    let c := conn.beginTxn
    let c := c.applyStmt dropComponentIndexes
    let c := c.applyStmt deleteAllComponents
    match insertSourceRows now false matching failAfter c [] with
    | .error cerr =>
      .error ("import failure", (cerr.applyStmt createComponentIndexes).rollbackTxn)
    | .ok (_, c) =>
      let c := c.applyStmt ftsRebuildAll
      let c := c.applyStmt createComponentIndexes
      let c := c.commitTxn
      .ok (⟨total, total, sourceMax⟩, c)
/-! ## Search and ranking engine

Embedding of `JLCPCBPartsManager.search_parts` (lines 759-830),
`get_part_info` (lines 832-855) and `suggest_alternatives` (lines 938-980).
The full-text subquery `components_fts MATCH ?` is the one fallible step of
the assembled statement (FTS5 rejects malformed query syntax); it is
embedded as a function argument returning either the matching keys or an
error. -/

/-- ASCII lower-casing, as SQLite's default `LIKE` applies to `A`-`Z`. -/
def asciiLowerChar (c : Char) : Char :=
  if 'A' ≤ c && c ≤ 'Z' then Char.ofNat (c.toNat + 32) else c

/-- Does `hay` start with `needle`? -/
def listStartsWith : List Char → List Char → Bool
  | [], _ => true
  | _ :: _, [] => false
  | n :: ns, h :: hs => n == h && listStartsWith ns hs

/-- Does `hay` contain `needle` as a contiguous run? -/
def listContainsRun : List Char → List Char → Bool
  | [], needle => needle.isEmpty
  | h :: t, needle => listStartsWith needle (h :: t) || listContainsRun t needle

/-- SQL `col LIKE '%' || s || '%'` under SQLite's default ASCII
case-insensitive `LIKE`, for filter values without `%`/`_` wildcards. -/
def sqlLikeContains (col s : String) : Bool :=
  listContainsRun (col.data.map asciiLowerChar) (s.data.map asciiLowerChar)

/-- Python truthiness of an optional string parameter (`if category:`):
`None` and `""` add no condition. -/
def pyTruthy (o : Option String) : Bool :=
  match o with
  | none => false
  | some s => s != ""

/-- One optional `LIKE` filter of the assembled query. -/
def optLikeFilter (param : Option String) (col : String) : Bool :=
  match param with
  | none => true
  | some s => if s == "" then true else sqlLikeContains col s

/-- The keyword arguments of `search_parts`. -/
structure SearchFilters where
  query : Option String
  category : Option String
  package : Option String
  library_type : Option String
  manufacturer : Option String
  in_stock : Bool
  limit : Int
deriving Repr

/-- SQL `LIMIT n`: a negative limit means no limit in SQLite. -/
def takeLimit (n : Int) (rows : List Component) : List Component :=
  if n < 0 then rows else rows.take n.toNat

/-- Does one `components` row satisfy every `WHERE` condition the assembled
statement adds (lines 787-817)?  `ftsKeys = some ks` is the evaluated
free-text subquery; the row scan itself visits rows in rowid order and
carries no `ORDER BY`. -/
def rowPassesFilters (ftsKeys : Option (List String)) (f : SearchFilters)
    (c : Component) : Bool :=
  (match ftsKeys with
   | none => true
   | some ks => ks.contains c.lcsc)
    && optLikeFilter f.category c.category
    && optLikeFilter f.package c.package
    && (match f.library_type with
        | none => true
        | some s => if s == "" then true else c.library_type == s)
    && optLikeFilter f.manufacturer c.manufacturer
    && (!f.in_stock || decide (0 < c.stock))

/-- Execute the assembled `SELECT` (line 825, `cursor.execute`): evaluate the
full-text subquery when a free-text query was given — its failure fails the
whole statement — then scan, filter and apply `LIMIT`. -/
def runSearchQuery (fts : String → Except String (List String))
    (db : List Component) (f : SearchFilters) :
    Except String (List Component) :=
  match (if pyTruthy f.query then (fts (pyOrStr f.query)).map some
         else .ok none) with
  | .error e => .error e
  | .ok keys => .ok (takeLimit f.limit (db.filter (rowPassesFilters keys f)))

/-- `JLCPCBPartsManager.search_parts` (lines 759-830): run the assembled
query; any exception is caught and the empty list returned (lines 824-830). -/
def search_parts (fts : String → Except String (List String))
    (db : List Component) (f : SearchFilters) : List Component :=
  match runSearchQuery fts db f with
  | .ok rows => rows
  | .error _ => []

/-- `JLCPCBPartsManager.get_part_info` (lines 832-855): the unique row with
the given primary key, if any. -/
def get_part_info (db : List Component) (lcsc_number : String) :
    Option Component :=
  db.find? (fun c => c.lcsc == lcsc_number)

/-- The sort key of `suggest_alternatives` (lines 967-976):
`(-is_basic, price, -stock)` where `price` is the price of the FIRST listed
price break, with `999` for an empty, unparsable or non-numeric price list. -/
def altSortKey (p : Component) : Int × ℚ × Int :=
  ( -(if p.library_type == "Basic" then (1 : Int) else 0)
  , (match p.price_json with
     | .invalid => 999
     | .list [] => 999
     | .list (b :: _) => b.price.getD 999)
  , -p.stock )

/-- Lexicographic comparison of sort keys, as Python compares tuples. -/
def sortKeyLe (a b : Int × ℚ × Int) : Bool :=
  decide (a.1 < b.1)
    || (a.1 == b.1
        && (decide (a.2.1 < b.2.1)
            || (a.2.1 == b.2.1 && decide (a.2.2 ≤ b.2.2))))

/-- `altLe p q`: part `p` sorts no later than part `q`. -/
def altLe (p q : Component) : Bool :=
  sortKeyLe (altSortKey p) (altSortKey q)

/-- Stable insertion step: `x` passes only over strictly greater elements. -/
def stableInsert {α : Type} (le : α → α → Bool) (x : α) : List α → List α
  | [] => [x]
  | y :: ys => if le x y then x :: y :: ys else y :: stableInsert le x ys

/-- Python `list.sort(key=...)`: a stable sort by the key order.  Every
stable sort of a list under a total preorder yields the same output, so
insertion sort embeds Timsort faithfully. -/
def pySort {α : Type} (le : α → α → Bool) : List α → List α
  | [] => []
  | x :: xs => stableInsert le x (pySort le xs)

/-- The free-text hook passed to `search_parts` by callers that set no
free-text query; it is never consulted because `query=None` is falsy. -/
def noFts : String → Except String (List String) :=
  fun _ => .ok []

/-- `JLCPCBPartsManager.suggest_alternatives` (lines 938-980): look up the
reference part; search with the reference's SUBCATEGORY as the `category`
filter and its package as the `package` filter, in-stock only, limit `3 *
limit`; drop the reference key; stable-sort by `(-is_basic, price, -stock)`;
return the first `limit`. -/
def suggest_alternatives (db : List Component) (lcsc_number : String)
    (limit : Nat) : List Component :=
  match get_part_info db lcsc_number with
  | none => []
  | some part =>
    let alternatives := search_parts noFts db
      { query := none
        category := some part.subcategory
        package := some part.package
        library_type := none
        manufacturer := none
        in_stock := true
        limit := (3 * limit : Nat) }
    let alternatives := alternatives.filter (fun p => p.lcsc != lcsc_number)
    (pySort altLe alternatives).take limit
/-! ## Download executor

Embedding of `JLCPCBClient.download_yaqwsx_cache` (jlcpcb.py lines 434-631)
and `JLCPCBClient._save_manifest` (lines 151-156), from the incremental plan
through the manifest rewrite.  The remote probe is deterministic within one
run, so the estimate's plan and the executor's plan coincide.  File sizes
and free-space values are bytes; Python `round(x, 1)` on the derived
megabyte floats is embedded exactly as an integer count of tenths of a
megabyte computed with half-to-even rounding, which agrees with the float
computation away from representation noise; the estimate's one-decimal
database-size figure is likewise carried as tenths.  The archive extraction that follows a successful
manifest rewrite is an external collaborator (`7z`) and is beyond the
properties stated here. -/

/-- `round(a / b)` half-to-even for a positive divisor, Python's `round` on
exact values. -/
def halfEvenDiv (a b : Int) : Int :=
  let q := Int.fdiv a b
  let r := a - q * b
  if 2 * r < b then q
  else if b < 2 * r then q + 1
  else if q % 2 = 0 then q
  else q + 1

/-- `round(bytes / (1024 * 1024), 1)`, represented exactly as an integer
count of tenths of a megabyte (the reported figure times 10). -/
def mbTenths (bytes : Int) : Int :=
  halfEvenDiv (bytes * 10) 1048576

/-- Metadata recorded per archive part in the cache manifest (lines 560-567). -/
structure ManifestFileMeta where
  size : Int
  etag : Option String
  lastModified : Option String
deriving Repr, DecidableEq

/-- The cache manifest (`cache_manifest.json`, lines 556-568). -/
structure CacheManifest where
  updatedAt : Int
  source : String
  createdAt : Option String
  files : List (String × ManifestFileMeta)
deriving Repr, DecidableEq

/-- The content of a file in the cache directory: a complete JSON rendering
of a manifest, or a rendering truncated by an interrupted write (corrupt). -/
inductive FileData where
  | json (m : CacheManifest)
  | truncated (m : CacheManifest) (upTo : Nat)
deriving Repr, DecidableEq

/-- Cache-directory file paths, relative to the target directory. -/
def manifestPath : String := "cache_manifest.json"

/-- `tmp_path = f"{manifest_path}.tmp"` (line 153). -/
def tmpManifestPath : String := manifestPath ++ ".tmp"

/-- A filesystem operation performed by `_save_manifest`. -/
inductive FsOp where
  | write (path : String) (data : FileData)
  | replace (src dst : String)
deriving Repr, DecidableEq

/-- The cache-directory filesystem: path to file content. -/
def FsMap : Type := String → Option FileData

/-- Apply one completed filesystem operation.  `os.replace` atomically moves
`src` over `dst`. -/
def applyFsOp (fs : FsMap) (op : FsOp) : FsMap :=
  match op with
  | .write p d => fun q => if q = p then some d else fs q
  | .replace src dst => fun q =>
    if q = dst then fs src else if q = src then none else fs q

/-- Apply a sequence of completed filesystem operations. -/
def applyFsOps (fs : FsMap) (ops : List FsOp) : FsMap :=
  ops.foldl applyFsOp fs

/-- The filesystem as seen after a crash: the first `k` operations completed
and, if the next operation is a `write` and `j = some n`, that write was
interrupted after `n` characters.  A `replace` is atomic: it either happened
or it did not. -/
def crashState (fs : FsMap) (ops : List FsOp) (k : Nat) (j : Option Nat) :
    FsMap :=
  let base := applyFsOps fs (ops.take k)
  match j, ops.drop k with
  | some n, .write p (.json m) :: _ => applyFsOp base (.write p (.truncated m n))
  | _, _ => base

/-- `JLCPCBClient._save_manifest` (lines 151-156): write the full JSON to the
temporary path, then atomically replace the manifest. -/
def save_manifest_ops (m : CacheManifest) : List FsOp :=
  [.write tmpManifestPath (.json m), .replace tmpManifestPath manifestPath]

/-- One observable event of the download phase, in order. -/
inductive DlEvent where
  | wrotePart (filename : String) (bytes : Int)
  | fsManifest (op : FsOp)
deriving Repr, DecidableEq

/-- The classified failures of the download phase. -/
inductive DlError where
  | diskSpace (requiredMBTenths availableMBTenths : Int)
  | network (filename : String)
deriving DecidableEq

/-- The success dictionary of `download_yaqwsx_cache` (lines 619-631; the
no-update early return is lines 450-464). -/
structure DlResult where
  downloadedBytes : Int
  totalDownloadBytesOut : Int
  changedParts : Nat
  reusedPartsCount : Nat
  updatedParts : List String
  noUpdate : Bool
deriving Repr, DecidableEq

/-- Everything one run of the download phase does. -/
structure DlOutcome where
  result : Except DlError DlResult
  events : List DlEvent
  finalManifest : Option CacheManifest

/-- The executor's environment: the per-part plan input (local file state,
fresh remote metadata, manifest entries), the free bytes of the download and
extraction directories, the estimate's database-size figure, the epoch
timestamp of the snapshot, and the set of parts whose streamed `GET` fails. -/
structure DlEnv where
  archiveParts : List ArchivePartState
  freeTargetBytes : Int
  freeExtractBytes : Int
  estimatedDatabaseSizeMBTenths : Int
  createdAt : Option String
  netFails : List String

/-- The streaming loop (lines 518-554): fetch each planned part in order,
writing it to the target directory; a failed transfer raises after the
already-finished parts. -/
def downloadLoopRun (env : DlEnv) :
    List String → Except (String × List DlEvent) (List DlEvent)
  | [] => .ok []
  | f :: rest =>
    if env.netFails.contains f then .error (f, [])
    else
      let size := ((env.archiveParts.find? (fun p => p.filename == f)).map
        remoteSizeOf).getD 0
      match downloadLoopRun env rest with
      | .ok evs => .ok (.wrotePart f size :: evs)
      | .error (g, evs) => .error (g, .wrotePart f size :: evs)

/-- The manifest rewritten on success (lines 556-569): one entry per archive
part of the current epoch, from the fresh remote metadata. -/
def finalManifestOf (env : DlEnv) (nowTs : Int) : CacheManifest :=
  { updatedAt := nowTs
    source := "public"
    createdAt := env.createdAt
    files := env.archiveParts.map (fun p =>
      (p.filename, ⟨pyOrInt p.remote.size 0, p.remote.etag,
        p.remote.lastModified⟩)) }

/-- `JLCPCBClient.download_yaqwsx_cache` (lines 434-631) up to the manifest
rewrite: re-plan against fresh metadata; return early when nothing changed;
check free space in the download directory against the planned bytes and in
the extraction directory against the estimated expanded size, raising a
disk-space error before any transfer; stream the planned parts; then save
the manifest atomically. -/
def download_yaqwsx_cache (env : DlEnv) (nowTs : Int) : DlOutcome :=
  let plan := plan_incremental_download env.archiveParts
  let updateMBTenths := mbTenths plan.totalDownloadBytes
  if plan.partsToDownload.length = 0 && updateMBTenths == 0 then
    { result := .ok
        { downloadedBytes := 0, totalDownloadBytesOut := 0
          changedParts := 0, reusedPartsCount := plan.reusedParts.length
          updatedParts := [], noUpdate := true }
      events := [], finalManifest := none }
  else
    let requiredBytes := plan.totalDownloadBytes
    if env.freeTargetBytes < requiredBytes then
      { result := .error (.diskSpace (mbTenths requiredBytes)
          (mbTenths env.freeTargetBytes))
        events := [], finalManifest := none }
    else
      let estDbBytes := Int.tdiv (env.estimatedDatabaseSizeMBTenths * 1048576) 10
      if env.freeExtractBytes < estDbBytes then
        { result := .error (.diskSpace (mbTenths estDbBytes)
            (mbTenths env.freeExtractBytes))
          events := [], finalManifest := none }
      else
        match downloadLoopRun env plan.partsToDownload with
        | .error (f, evs) =>
          { result := .error (.network f), events := evs,
            finalManifest := none }
        | .ok evs =>
          let m := finalManifestOf env nowTs
          { result := .ok
              { downloadedBytes := plan.totalDownloadBytes
                totalDownloadBytesOut := plan.totalDownloadBytes
                changedParts := plan.partsToDownload.length
                reusedPartsCount := plan.reusedParts.length
                updatedParts := plan.partsToDownload, noUpdate := false }
            events := evs ++ (save_manifest_ops m).map .fsManifest
            finalManifest := some m }
/-! ## Vendor API request signing

Embedding of `JLCPCBClient._build_signature_string` (jlcpcb.py lines
662-685) and `JLCPCBClient._sign` (lines 687-702).  Python's decimal
rendering of the integer timestamp, UTF-8 encoding, HMAC-SHA256
(RFC 2104 over FIPS 180-4 SHA-256, the `hmac`/`hashlib` library calls) and
standard base64 are implemented concretely; bytes are naturals below 256 and
32-bit words are naturals reduced modulo `2 ^ 32`. -/

/-- The character of a decimal digit. -/
def digitCh (d : Nat) : Char :=
  Char.ofNat (48 + d)

/-- Python `str(n)` for a natural number. -/
def natDecimal (n : Nat) : String :=
  if n = 0 then "0" else ⟨(Nat.digits 10 n).reverse.map digitCh⟩

/-- Python `str(i)` for an integer (an f-string renders `int` this way). -/
def intDecimal (i : Int) : String :=
  if i < 0 then "-" ++ natDecimal (-i).toNat else natDecimal i.toNat

/-- `JLCPCBClient._build_signature_string`: the literal
`METHOD\nPATH\nTIMESTAMP\nNONCE\nBODY\n`. -/
def build_signature_string (method path : String) (timestamp : Int)
    (nonce body : String) : String :=
  method ++ "\n" ++ path ++ "\n" ++ intDecimal timestamp ++ "\n"
    ++ nonce ++ "\n" ++ body ++ "\n"

/-- UTF-8 encoding of one character. -/
def encodeUtf8Char (c : Char) : List Nat :=
  let n := c.toNat
  if n < 128 then [n]
  else if n < 2048 then [192 + n / 64, 128 + n % 64]
  else if n < 65536 then
    [224 + n / 4096, 128 + n / 64 % 64, 128 + n % 64]
  else
    [240 + n / 262144, 128 + n / 4096 % 64, 128 + n / 64 % 64, 128 + n % 64]

/-- `s.encode("utf-8")`. -/
def utf8Bytes (s : String) : List Nat :=
  s.data.flatMap encodeUtf8Char

/-- Reduce to a 32-bit word. -/
def w32 (n : Nat) : Nat := n % 4294967296

/-- 32-bit modular addition. -/
def wadd (a b : Nat) : Nat := w32 (a + b)

/-- 32-bit right rotation (for `0 < r < 32` on 32-bit inputs). -/
def rotr32 (x r : Nat) : Nat :=
  w32 (x / 2 ^ r + x * 2 ^ (32 - r))

/-- Bitwise complement on 32 bits. -/
def wnot (x : Nat) : Nat := Nat.xor x 4294967295

/-- SHA-256 `Ch`. -/
def shaCh (x y z : Nat) : Nat :=
  Nat.xor (Nat.land x y) (Nat.land (wnot x) z)

/-- SHA-256 `Maj`. -/
def shaMaj (x y z : Nat) : Nat :=
  Nat.xor (Nat.xor (Nat.land x y) (Nat.land x z)) (Nat.land y z)

/-- SHA-256 `Σ0`. -/
def bsig0 (x : Nat) : Nat :=
  Nat.xor (Nat.xor (rotr32 x 2) (rotr32 x 13)) (rotr32 x 22)

/-- SHA-256 `Σ1`. -/
def bsig1 (x : Nat) : Nat :=
  Nat.xor (Nat.xor (rotr32 x 6) (rotr32 x 11)) (rotr32 x 25)

/-- SHA-256 `σ0`. -/
def ssig0 (x : Nat) : Nat :=
  Nat.xor (Nat.xor (rotr32 x 7) (rotr32 x 18)) (x / 2 ^ 3)

/-- SHA-256 `σ1`. -/
def ssig1 (x : Nat) : Nat :=
  Nat.xor (Nat.xor (rotr32 x 17) (rotr32 x 19)) (x / 2 ^ 10)

/-- The SHA-256 round constants (FIPS 180-4 section 4.2.2), in decimal. -/
def shaK : List Nat :=
  [1116352408, 1899447441, 3049323471, 3921009573, 961987163,
   1508970993, 2453635748, 2870763221, 3624381080, 310598401,
   607225278, 1426881987, 1925078388, 2162078206, 2614888103,
   3248222580, 3835390401, 4022224774, 264347078, 604807628,
   770255983, 1249150122, 1555081692, 1996064986, 2554220882,
   2821834349, 2952996808, 3210313671, 3336571891, 3584528711,
   113926993, 338241895, 666307205, 773529912, 1294757372,
   1396182291, 1695183700, 1986661051, 2177026350, 2456956037,
   2730485921, 2820302411, 3259730800, 3345764771, 3516065817,
   3600352804, 4094571909, 275423344, 430227734, 506948616,
   659060556, 883997877, 958139571, 1322822218, 1537002063,
   1747873779, 1955562222, 2024104815, 2227730452, 2361852424,
   2428436474, 2756734187, 3204031479, 3329325298]

/-- The SHA-256 initial hash value (FIPS 180-4 section 5.3.3), in decimal. -/
def shaH0 : List Nat :=
  [1779033703, 3144134277, 1013904242, 2773480762, 1359893119,
   2600822924, 528734635, 1541459225]

/-- Big-endian 8-byte rendering of a (64-bit) length. -/
def be64 (n : Nat) : List Nat :=
  [n / 2 ^ 56 % 256, n / 2 ^ 48 % 256, n / 2 ^ 40 % 256, n / 2 ^ 32 % 256,
   n / 2 ^ 24 % 256, n / 2 ^ 16 % 256, n / 2 ^ 8 % 256, n % 256]

/-- SHA-256 message padding: `0x80`, zeros to 56 mod 64, 64-bit bit length. -/
def sha256Pad (msg : List Nat) : List Nat :=
  let l := msg.length
  let k := (64 - (l + 9) % 64) % 64
  msg ++ [128] ++ List.replicate k 0 ++ be64 (8 * l)

/-- Big-endian 4-byte grouping into 32-bit words. -/
def bytesToWords : List Nat → List Nat
  | b0 :: b1 :: b2 :: b3 :: rest =>
    (((b0 * 256 + b1) * 256 + b2) * 256 + b3) :: bytesToWords rest
  | _ => []

/-- Big-endian 4-byte rendering of each 32-bit word. -/
def wordsToBytes : List Nat → List Nat
  | [] => []
  | w :: rest =>
    [w / 2 ^ 24 % 256, w / 2 ^ 16 % 256, w / 2 ^ 8 % 256, w % 256]
      ++ wordsToBytes rest

/-- Extend a 16-word block to the 64-word message schedule. -/
def extendSchedule (w : List Nat) : List Nat :=
  (List.range 48).foldl
    (fun w _ =>
      w ++ [wadd (wadd (ssig1 (w.getD (w.length - 2) 0))
                       (w.getD (w.length - 7) 0))
                 (wadd (ssig0 (w.getD (w.length - 15) 0))
                       (w.getD (w.length - 16) 0))])
    w

/-- One SHA-256 compression round. -/
def shaRound (state : List Nat) (kw : Nat × Nat) : List Nat :=
  match state with
  | [a, b, c, d, e, f, g, h] =>
    let t1 := wadd (wadd (wadd h (bsig1 e)) (wadd (shaCh e f g) kw.1)) kw.2
    let t2 := wadd (bsig0 a) (shaMaj a b c)
    [wadd t1 t2, a, b, c, wadd d t1, e, f, g]
  | s => s

/-- Compress one 64-byte block into the running hash. -/
def shaCompress (h : List Nat) (block : List Nat) : List Nat :=
  let w := extendSchedule (bytesToWords block)
  let out := (shaK.zip w).foldl shaRound h
  (h.zip out).map (fun p => wadd p.1 p.2)

/-- Split into 64-byte blocks. -/
def blocks64 : List Nat → List (List Nat)
  | [] => []
  | x :: xs => ((x :: xs).take 64) :: blocks64 ((x :: xs).drop 64)
termination_by l => l.length
decreasing_by simp [List.length_drop]; omega

/-- FIPS 180-4 SHA-256 of a byte sequence, as `hashlib.sha256(...).digest()`. -/
def sha256 (msg : List Nat) : List Nat :=
  wordsToBytes ((blocks64 (sha256Pad msg)).foldl shaCompress shaH0)

/-- RFC 2104 HMAC-SHA256, as `hmac.new(key, msg, hashlib.sha256).digest()`. -/
def hmacSha256 (key msg : List Nat) : List Nat :=
  let key := if 64 < key.length then sha256 key else key
  let key := key ++ List.replicate (64 - key.length) 0
  let opad := key.map (Nat.xor · 92)
  let ipad := key.map (Nat.xor · 54)
  sha256 (opad ++ sha256 (ipad ++ msg))

/-- The base64 alphabet. -/
def base64Digit (n : Nat) : Char :=
  ("ABCDEFGHIJKLMNOPQRSTUVWXYZabcdefghijklmnopqrstuvwxyz0123456789+/".data.getD
    n '=')

/-- Standard base64 with `=` padding, grouping three bytes into four digits. -/
def base64Chars : List Nat → List Char
  | b0 :: b1 :: b2 :: rest =>
    [base64Digit (b0 / 4), base64Digit (b0 % 4 * 16 + b1 / 16),
     base64Digit (b1 % 16 * 4 + b2 / 64), base64Digit (b2 % 64)]
      ++ base64Chars rest
  | [b0, b1] =>
    [base64Digit (b0 / 4), base64Digit (b0 % 4 * 16 + b1 / 16),
     base64Digit (b1 % 16 * 4), '=']
  | [b0] =>
    [base64Digit (b0 / 4), base64Digit (b0 % 4 * 16), '=', '=']
  | [] => []

/-- `base64.b64encode(...).decode("utf-8")`. -/
def base64Encode (bs : List Nat) : String :=
  ⟨base64Chars bs⟩

/-- `JLCPCBClient._sign`: base64 of the HMAC-SHA256 of the UTF-8 encoded
signature string under the UTF-8 encoded secret key. -/
def jlcpcb_sign (secretKey signatureString : String) : String :=
  base64Encode (hmacSha256 (utf8Bytes secretKey) (utf8Bytes signatureString))
/-! ## Concrete stores used as evaluation inputs -/

/-- The three-row catalog of the repository's own regression test
`src/tests/test_jlcpcb_basic_first.py`, inserted in the order Extended,
Basic, Preferred (rowids 1, 2, 3). -/
def tierTestDb : List Component :=
  [⟨"C_EXT", "Resistors", "Chip Resistor", "R-EXT", "0603", 2, "X",
      "Extended", "ext", "", 100, .list [], 1⟩,
   ⟨"C_BAS", "Resistors", "Chip Resistor", "R-BASIC", "0603", 2, "X",
      "Basic", "basic", "", 100, .list [], 1⟩,
   ⟨"C_PREF", "Resistors", "Chip Resistor", "R-PREF", "0603", 2, "X",
      "Preferred", "pref", "", 100, .list [], 1⟩]

/-- The unfiltered tier-ranking search of the test: category `Resistors`,
in-stock, limit 10, no tier filter. -/
def tierSearchFilters : SearchFilters :=
  ⟨none, some "Resistors", none, none, none, true, 10⟩

/-- The same search additionally filtered to `library_type = "Extended"`. -/
def tierSearchFiltersExtended : SearchFilters :=
  ⟨none, some "Resistors", none, some "Extended", none, true, 10⟩

/-- A full-text hook whose query execution fails, as FTS5 does on malformed
query syntax such as an unbalanced `"`. -/
def failingFts : String → Except String (List String) :=
  fun _ => .error "fts5: syntax error"

/-- The reference part of the alternatives scenario: subcategory `A`,
package `P`. -/
def altRefPart : Component :=
  ⟨"C1", "Res", "A", "", "P", 0, "", "Extended", "", "", 5, .list [], 0⟩

/-- A candidate whose CATEGORY is `A` (matching the reference's subcategory
as a substring) but whose own subcategory is `B`, not `A`. -/
def altOtherSubcat : Component :=
  ⟨"C2", "A", "B", "", "P2", 0, "", "Extended", "", "", 5, .list [], 0⟩

/-- A candidate whose first listed price is 5 but whose lowest listed price
is 1. -/
def altFirstHigh : Component :=
  ⟨"C3", "xAx", "A", "", "PP", 0, "", "Extended", "", "", 5,
    .list [⟨1, some 5⟩, ⟨10, some 1⟩], 0⟩

/-- A candidate with a single listed price of 3. -/
def altSingle3 : Component :=
  ⟨"C4", "A!", "A", "", "P", 0, "", "Extended", "", "", 5,
    .list [⟨1, some 3⟩], 0⟩

/-- The alternatives scenario store. -/
def altDb : List Component :=
  [altRefPart, altOtherSubcat, altFirstHigh, altSingle3]

/-- The listed prices of a part's price-break list. -/
def listedPrices (p : Component) : List ℚ :=
  match p.price_json with
  | .invalid => []
  | .list bs => bs.filterMap (·.price)

/-- A source row used by the rollback scenario. -/
def rollbackSrcRow : SourceRow :=
  ⟨"9", some "c", some "s", some "m", some "p", some 2, some "man", some 0,
    some 0, some "d", some "", some 4, none, some 10⟩

/-- An idle connection whose committed store holds one row, its full-text
entry and the secondary indexes. -/
def rollbackConn : Conn :=
  ⟨⟨[⟨"OLD", "c", "s", "m", "p", 0, "man", "Basic", "d", "", 1, .list [], 5⟩],
    [⟨"OLD", "d", "m", "man"⟩], true⟩, none⟩

/-- An idle connection over an empty catalog with its indexes. -/
def emptyIdleConn : Conn := ⟨⟨[], [], true⟩, none⟩

/-- A source row older than the watermark used in the incremental scenarios:
`last_update = 50`, in stock. -/
def staleSrcRow : SourceRow :=
  ⟨"123", some "cat", some "sub", some "m", some "p", some 2, some "man",
    some 0, some 0, some "d", some "", some 3, none, some 50⟩

/-- An in-stock source row newer than the watermark: `last_update = 110`. -/
def wmRowA : SourceRow :=
  ⟨"7", some "c", some "s", some "m", some "p", some 2, some "man", some 1,
    some 0, some "d", some "", some 9, none, some 110⟩

/-- An out-of-stock source row carrying the largest `last_update = 120`. -/
def wmRowB : SourceRow :=
  ⟨"8", some "c", some "s", some "m", some "p", some 2, some "man", some 0,
    some 0, some "d", some "", some 0, none, some 120⟩

/-- The filesystem operations a download run performed on the manifest. -/
def manifestOpsOf (o : DlOutcome) : List FsOp :=
  o.events.filterMap (fun e =>
    match e with
    | .fsManifest op => some op
    | .wrotePart _ _ => none)

/-- A download-phase environment with one changed part (`cache.zip`, 1 MiB,
local copy absent) and ample disk space. -/
def oneChangedEnv : DlEnv :=
  ⟨[⟨"cache.zip", none, ⟨some 1048576, some "\"e1\"", none⟩, none⟩],
    10485760, 104857600, 20, some "2024-01-01", []⟩

/-- The same environment with only 100 free bytes in the download directory. -/
def lowSpaceEnv : DlEnv :=
  ⟨[⟨"cache.zip", none, ⟨some 1048576, some "\"e1\"", none⟩, none⟩],
    100, 104857600, 20, some "2024-01-01", []⟩

/-- Decidable equality of `Except` results. -/
instance instDecEqExcept {ε α : Type} [DecidableEq ε] [DecidableEq α] :
    DecidableEq (Except ε α) := fun x y =>
  match x, y with
  | .ok a, .ok b =>
    if h : a = b then isTrue (by rw [h])
    else isFalse (by intro hc; cases hc; exact h rfl)
  | .error a, .error b =>
    if h : a = b then isTrue (by rw [h])
    else isFalse (by intro hc; cases hc; exact h rfl)
  | .ok _, .error _ => isFalse (by intro hc; cases hc)
  | .error _, .ok _ => isFalse (by intro hc; cases hc)
/-! ## Theorems -/

/-- Every filename the plan schedules for download is the filename of an input
part that `shouldRedownload` accepts, in input order. -/
theorem plan_partsToDownload_eq (parts : List ArchivePartState) :
    (plan_incremental_download parts).partsToDownload
      = (parts.filter shouldRedownload).map (·.filename) := by
  induction parts with
  | nil => rfl
  | cons p rest ih =>
    by_cases h : shouldRedownload p = true <;>
      simp [plan_incremental_download, List.filter_cons, h, ih]

/-- Every filename the plan reuses is the filename of an input part that
`shouldRedownload` rejects, in input order. -/
theorem plan_reusedParts_eq (parts : List ArchivePartState) :
    (plan_incremental_download parts).reusedParts
      = (parts.filter (fun p => !shouldRedownload p)).map (·.filename) := by
  induction parts with
  | nil => rfl
  | cons p rest ih =>
    by_cases h : shouldRedownload p = true <;>
      simp [plan_incremental_download, List.filter_cons, h, ih]

/-- The planned byte total is the sum of remote sizes over the scheduled parts. -/
theorem plan_totalBytes_eq (parts : List ArchivePartState) :
    (plan_incremental_download parts).totalDownloadBytes
      = ((parts.filter shouldRedownload).map remoteSizeOf).sum := by
  induction parts with
  | nil => rfl
  | cons p rest ih =>
    by_cases h : shouldRedownload p = true <;>
      simp [plan_incremental_download, List.filter_cons, h, ih]

/-- Membership in the plan's two output lists is decided exactly by
`shouldRedownload`, provided the archive part filenames are distinct (they
are: `cache.z01 … cache.zNN, cache.zip`). -/
theorem plan_mem_characterization (parts : List ArchivePartState)
    (hnd : (parts.map (·.filename)).Nodup)
    (p : ArchivePartState) (hp : p ∈ parts) :
    (p.filename ∈ (plan_incremental_download parts).partsToDownload
        ↔ shouldRedownload p = true)
      ∧ (p.filename ∈ (plan_incremental_download parts).reusedParts
        ↔ shouldRedownload p = false) := by
  have hinj := List.inj_on_of_nodup_map hnd
  constructor
  · rw [plan_partsToDownload_eq]
    constructor
    · rintro h
      rcases List.mem_map.1 h with ⟨q, hq, hfq⟩
      rcases List.mem_filter.1 hq with ⟨hqmem, hqd⟩
      have : q = p := hinj hqmem hp hfq
      rwa [this] at hqd
    · intro h
      exact List.mem_map.2 ⟨p, List.mem_filter.2 ⟨hp, h⟩, rfl⟩
  · rw [plan_reusedParts_eq]
    constructor
    · rintro h
      rcases List.mem_map.1 h with ⟨q, hq, hfq⟩
      rcases List.mem_filter.1 hq with ⟨hqmem, hqd⟩
      have : q = p := hinj hqmem hp hfq
      rw [this] at hqd
      simpa using hqd
    · intro h
      exact List.mem_map.2 ⟨p, List.mem_filter.2 ⟨hp, by simp [h]⟩, rfl⟩


/-- A recorded change-tag equal to the remote one makes `same_etag` true. -/
theorem sameEtagB_of_eq (p : ArchivePartState)
    (he : p.previous.bind (·.etag) = p.remote.etag)
    (hne : remoteEtagOf p ≠ "") : sameEtagB p = true := by
  have hpe : prevEtagOf p = remoteEtagOf p := by
    unfold prevEtagOf remoteEtagOf
    rw [he]
  simp [sameEtagB, hpe, hne]

/-- A recorded last-modified equal to the remote one makes `same_last_modified` true. -/
theorem sameLmB_of_eq (p : ArchivePartState)
    (he : p.previous.bind (·.lastModified) = p.remote.lastModified)
    (hne : remoteLmOf p ≠ "") : sameLmB p = true := by
  have hpe : prevLmOf p = remoteLmOf p := by
    unfold prevLmOf remoteLmOf
    rw [he]
  simp [sameLmB, hpe, hne]

/-- A part whose local file exists and whose change-tag or last-modified
matches is never scheduled for download. -/
theorem shouldRedownload_eq_false_of_match (p : ArchivePartState)
    (hl : p.localSize.isSome)
    (hsig : sameEtagB p = true ∨ sameLmB p = true) :
    shouldRedownload p = false := by
  have hnn : p.localSize.isNone = false := by
    cases hls : p.localSize with
    | none => rw [hls] at hl; simp at hl
    | some s => simp [hls]
  rcases hsig with h | h <;> simp [shouldRedownload, hnn, h]

/-- C3 — Planner reuse on matching metadata, and the byte-total invariant.
If an archive part's local file exists and its manifest entry records the
same change-tag as the fresh remote probe (with a tag actually present), or
the same last-modified value, the planner places the part in `reusedParts`
and not in `partsToDownload`.  Moreover, for every planner output,
`partsToDownload` consists exactly of the parts scheduled for download and
`totalDownloadBytes` is the sum of the remote sizes of exactly those parts,
so reused parts contribute nothing. -/
theorem plan_reuses_matching_part_and_sums_downloads
    (parts : List ArchivePartState)
    (hnd : (parts.map (·.filename)).Nodup)
    (p : ArchivePartState) (hp : p ∈ parts)
    (hl : p.localSize.isSome)
    (hsig : (p.previous.bind (·.etag) = p.remote.etag ∧ remoteEtagOf p ≠ "")
          ∨ (p.previous.bind (·.lastModified) = p.remote.lastModified
              ∧ remoteLmOf p ≠ "")) :
    p.filename ∈ (plan_incremental_download parts).reusedParts
      ∧ p.filename ∉ (plan_incremental_download parts).partsToDownload
      ∧ (plan_incremental_download parts).partsToDownload
          = (parts.filter shouldRedownload).map (·.filename)
      ∧ (plan_incremental_download parts).totalDownloadBytes
          = ((parts.filter shouldRedownload).map remoteSizeOf).sum := by
  have hfalse : shouldRedownload p = false := by
    apply shouldRedownload_eq_false_of_match p hl
    rcases hsig with ⟨he, hne⟩ | ⟨he, hne⟩
    · exact Or.inl (sameEtagB_of_eq p he hne)
    · exact Or.inr (sameLmB_of_eq p he hne)
  have hchar := plan_mem_characterization parts hnd p hp
  refine ⟨hchar.2.2 hfalse, ?_, plan_partsToDownload_eq parts,
    plan_totalBytes_eq parts⟩
  intro hmem
  rw [hchar.1] at hmem
  rw [hfalse] at hmem
  exact Bool.false_ne_true hmem

/-- Witness for C3 at a concrete input: one archive part with a local file of
size 100 whose manifest change-tag `"abc"` matches the remote probe; the
planner reuses it and plans zero download bytes. -/
theorem plan_reuses_matching_part_witness :
    "cache.zip" ∈ (plan_incremental_download
        [⟨"cache.zip", some 100,
          ⟨some 100, some "\"abc\"", none⟩,
          some ⟨some "\"abc\"", none⟩⟩]).reusedParts := by
  have h := plan_reuses_matching_part_and_sums_downloads
    [⟨"cache.zip", some 100, ⟨some 100, some "\"abc\"", none⟩,
      some ⟨some "\"abc\"", none⟩⟩]
    (by decide)
    ⟨"cache.zip", some 100, ⟨some 100, some "\"abc\"", none⟩,
      some ⟨some "\"abc\"", none⟩⟩
    (by decide) (by decide)
    (Or.inl ⟨by decide, by decide⟩)
  exact h.1

/-- C2 counterexample — with a local file present, no previous or remote
change-tag, no previous or remote last-modified, and unequal sizes, the
planner schedules the part for download (`partsToDownload`), and does not
reuse it, contradicting the claim that this no-usable-signal case defaults to
reuse. -/
theorem plan_weak_signal_counterexample :
    weakSignalPart.localSize.isSome = true
      ∧ weakSignalPart.previous.bind (·.etag) = none
      ∧ weakSignalPart.remote.etag = none
      ∧ weakSignalPart.previous.bind (·.lastModified) = none
      ∧ weakSignalPart.remote.lastModified = none
      ∧ weakSignalPart.localSize ≠ some (remoteSizeOf weakSignalPart)
      ∧ (plan_incremental_download [weakSignalPart]).reusedParts = []
      ∧ (plan_incremental_download [weakSignalPart]).partsToDownload
          = ["cache.z01"] := by
  refine ⟨rfl, rfl, rfl, rfl, rfl, by decide, rfl, rfl⟩

/-- C2 amended — for every archive part whose local file exists, with no
previous or remote change-tag available, no previous or remote last-modified
available, and local size unequal to the remote size, the planner classifies
the part as a download (line 246-247 of jlcpcb.py, `elif not same_size:
should_redownload = True`), not as reused. -/
theorem plan_weak_signal_downloads (p : ArchivePartState) (s : Int)
    (hl : p.localSize = some s)
    (hpe : prevEtagOf p = "")
    (hre : remoteEtagOf p = "")
    (hplm : prevLmOf p = "")
    (hrlm : remoteLmOf p = "")
    (hsz : s ≠ remoteSizeOf p) :
    shouldRedownload p = true
      ∧ ∀ parts : List ArchivePartState, (parts.map (·.filename)).Nodup →
          p ∈ parts →
          p.filename ∈ (plan_incremental_download parts).partsToDownload
            ∧ p.filename ∉ (plan_incremental_download parts).reusedParts := by
  have hss : sameSizeB p = false := by
    simp [sameSizeB, hl, hsz]
  have hse : sameEtagB p = false := by simp [sameEtagB, hpe]
  have hsl : sameLmB p = false := by simp [sameLmB, hplm]
  have hmain : shouldRedownload p = true := by
    simp [shouldRedownload, hl, hss, hse, hsl, hre, hrlm]
  refine ⟨hmain, ?_⟩
  intro parts hnd hp
  have hchar := plan_mem_characterization parts hnd p hp
  refine ⟨hchar.1.2 hmain, ?_⟩
  intro hmem
  rw [hchar.2, hmain] at hmem
  cases hmem

/-- Witness for the amended C2 at the concrete weakest-signal part. -/
theorem plan_weak_signal_downloads_witness :
    shouldRedownload weakSignalPart = true
      ∧ "cache.z01"
        ∈ (plan_incremental_download [weakSignalPart]).partsToDownload := by
  have h := plan_weak_signal_downloads weakSignalPart 10 rfl rfl rfl rfl rfl
    (by decide)
  exact ⟨h.1, (h.2 [weakSignalPart] (by decide)
    (List.mem_singleton.2 rfl)).1⟩

/-- C1 — the assembled `search_parts` statement carries no `ORDER BY`, so an
unfiltered tier search returns rows in rowid (insertion) order.  On the
three-row store of the repository's own test
`test_search_parts_defaults_to_basic_first` (rows inserted in the order
Extended, Basic, Preferred) the unfiltered category search returns the tiers
in insertion order `[Extended, Basic, Preferred]`, not the Basic-first order
`[Basic, Preferred, Extended]` that the specification and the repository's
test require; the `library_type = "Extended"` half of the scenario does
return exactly the one Extended row. -/
theorem search_parts_no_tier_sort_at_test_store :
    (search_parts noFts tierTestDb tierSearchFilters).map (·.library_type)
        = ["Extended", "Basic", "Preferred"]
      ∧ (search_parts noFts tierTestDb tierSearchFilters).map (·.library_type)
        ≠ ["Basic", "Preferred", "Extended"]
      ∧ (search_parts noFts tierTestDb tierSearchFiltersExtended).map (·.lcsc)
        = ["C_EXT"] := by
  refine ⟨by decide, by decide, by decide⟩

/-- C10 — `search_parts` never raises: when executing the assembled query
fails (the free-text `MATCH` subquery rejects the query string), the
exception is caught and the empty list returned. -/
theorem search_parts_swallows_query_errors
    (fts : String → Except String (List String)) (db : List Component)
    (f : SearchFilters) (e : String)
    (h : runSearchQuery fts db f = .error e) :
    search_parts fts db f = [] := by
  simp [search_parts, h]

/-- Witness for C10: a failing FTS hook on a concrete store and query. -/
theorem search_parts_swallows_query_errors_witness :
    search_parts failingFts tierTestDb
      ⟨some "res\"", some "Resistors", none, none, none, true, 10⟩ = [] :=
  search_parts_swallows_query_errors failingFts tierTestDb
    ⟨some "res\"", some "Resistors", none, none, none, true, 10⟩
    "fts5: syntax error" rfl

/-- A statement executed inside an open transaction touches only the
transaction's working copy, never the committed store. -/
theorem applyStmt_committed_of_txn (c : Conn) (f : CatalogDB → CatalogDB)
    (h : c.txn.isSome = true) :
    (c.applyStmt f).committed = c.committed
      ∧ (c.applyStmt f).txn.isSome = true := by
  cases htxn : c.txn with
  | none => rw [htxn] at h; simp at h
  | some s => simp [Conn.applyStmt, htxn]

/-- The streaming insert loop runs entirely inside the open transaction: the
committed store is unchanged whether it completes or raises, and the
transaction stays open. -/
theorem insertSourceRows_committed (now : Int) (inc : Bool) :
    ∀ (rows : List SourceRow) (fa : Option Nat) (c : Conn) (t : List String),
      c.txn.isSome = true →
      (∀ cerr, insertSourceRows now inc rows fa c t = .error cerr →
          cerr.committed = c.committed ∧ cerr.txn.isSome = true)
        ∧ (∀ out, insertSourceRows now inc rows fa c t = .ok out →
          out.2.committed = c.committed ∧ out.2.txn.isSome = true) := by
  intro rows
  induction rows with
  | nil =>
    intro fa c t htxn
    constructor
    · intro cerr herr
      match fa, herr with
      | some 0, herr =>
        simp only [insertSourceRows] at herr
        cases herr
        exact ⟨rfl, htxn⟩
      | none, herr => simp [insertSourceRows] at herr
      | some (n + 1), herr => simp [insertSourceRows] at herr
    · intro out hok
      match fa, hok with
      | some 0, hok => simp [insertSourceRows] at hok
      | none, hok =>
        simp only [insertSourceRows] at hok
        cases hok
        exact ⟨rfl, htxn⟩
      | some (n + 1), hok =>
        simp only [insertSourceRows] at hok
        cases hok
        exact ⟨rfl, htxn⟩
  | cons r rest ih =>
    intro fa c t htxn
    have hstep := applyStmt_committed_of_txn c
      (fun db => { db with components := upsertComponent db.components (convertRow now r) }) htxn
    constructor
    · intro cerr herr
      match fa, herr with
      | some 0, herr =>
        simp only [insertSourceRows] at herr
        cases herr
        exact ⟨rfl, htxn⟩
      | none, herr =>
        simp only [insertSourceRows] at herr
        have := (ih none _ _ hstep.2).1 cerr herr
        exact ⟨this.1.trans hstep.1, this.2⟩
      | some (n + 1), herr =>
        simp only [insertSourceRows, Option.map] at herr
        have := (ih (some n) _ _ hstep.2).1 cerr (by simpa using herr)
        exact ⟨this.1.trans hstep.1, this.2⟩
    · intro out hok
      match fa, hok with
      | some 0, hok => simp [insertSourceRows] at hok
      | none, hok =>
        simp only [insertSourceRows] at hok
        have := (ih none _ _ hstep.2).2 out hok
        exact ⟨this.1.trans hstep.1, this.2⟩
      | some (n + 1), hok =>
        simp only [insertSourceRows, Option.map] at hok
        have := (ih (some n) _ _ hstep.2).2 out (by simpa using hok)
        exact ⟨this.1.trans hstep.1, this.2⟩

/-- C5 — full-import rollback.  If any exception is raised during a
full import (here: injected after `failAfter` row upserts, anywhere in
the stream, including after the destructive `DELETE FROM components`), the
handler recreates the indexes on the open transaction and rolls it back
before re-raising, so the committed catalog's row contents, full-text index
and secondary indexes are exactly as before the run, no transaction is left
open, and a store that had its indexes still has them. -/
theorem import_full_rollback (src : List SourceRow) (in_stock_only : Bool)
    (now : Int) (failAfter : Option Nat) (conn : Conn)
    (_hidle : conn.txn = none) (e : String) (c' : Conn)
    (h : import_yaqwsx_cache src in_stock_only none now failAfter conn
      = .error (e, c')) :
    c'.committed.components = conn.committed.components
      ∧ c'.committed.fts = conn.committed.fts
      ∧ c'.committed.hasIndexes = conn.committed.hasIndexes
      ∧ c'.txn = none
      ∧ (conn.committed.hasIndexes = true → c'.committed.hasIndexes = true) := by
  have hopen : ((conn.beginTxn.applyStmt dropComponentIndexes).applyStmt
      deleteAllComponents).txn.isSome = true := by
    simp [Conn.beginTxn, Conn.applyStmt]
  have hcommitted : ((conn.beginTxn.applyStmt dropComponentIndexes).applyStmt
      deleteAllComponents).committed = conn.committed := by
    simp [Conn.beginTxn, Conn.applyStmt]
  rcases hres : insertSourceRows now false
      (src.filter (rowMatches in_stock_only none)) failAfter
      ((conn.beginTxn.applyStmt dropComponentIndexes).applyStmt
        deleteAllComponents) [] with cerr | out
  · have hpres := (insertSourceRows_committed now false
      (src.filter (rowMatches in_stock_only none)) failAfter
      ((conn.beginTxn.applyStmt dropComponentIndexes).applyStmt
        deleteAllComponents) [] hopen).1 cerr hres
    have hcerr : cerr.committed = conn.committed := hpres.1.trans hcommitted
    simp only [import_yaqwsx_cache, hres] at h
    cases h
    have happly := applyStmt_committed_of_txn cerr createComponentIndexes
      hpres.2
    simp [Conn.rollbackTxn, happly.1, hcerr]
  · simp only [import_yaqwsx_cache, hres] at h
    cases h

/-- Witness for C5: a failure injected after zero rows, mid-way through a
full import that had already deleted every row inside the transaction,
leaves the one-row committed store, its full-text entry, its indexes and the
idle connection intact. -/
theorem import_full_rollback_witness :
    rollbackConn.txn = none
      ∧ (⟨rollbackConn.committed, none⟩ : Conn).committed.components
          = rollbackConn.committed.components
      ∧ (⟨rollbackConn.committed, none⟩ : Conn).committed.hasIndexes = true := by
  refine ⟨rfl, ?_, ?_⟩
  · exact (import_full_rollback [rollbackSrcRow] true 777 (some 0)
      rollbackConn rfl "import failure" ⟨rollbackConn.committed, none⟩
      rfl).1
  · exact (import_full_rollback [rollbackSrcRow] true 777 (some 0)
      rollbackConn rfl "import failure" ⟨rollbackConn.committed, none⟩
      rfl).2.2.2.2 rfl

/-- SQL `MAX` returns an element of the collected values. -/
theorem listMaxInt_mem : ∀ (l : List Int) (m : Int),
    listMaxInt l = some m → m ∈ l := by
  intro l
  induction l with
  | nil => intro m h; simp [listMaxInt] at h
  | cons x xs ih =>
    intro m h
    simp only [listMaxInt] at h
    cases hxs : listMaxInt xs with
    | none => rw [hxs] at h; cases h; exact List.mem_cons_self x xs
    | some mx =>
      rw [hxs] at h
      cases h
      rcases max_choice x mx with hm | hm
      · rw [hm]; exact List.mem_cons_self x xs
      · rw [hm]; exact List.mem_cons_of_mem x (ih mx hxs)

/-- A `cons` evaluation equation for SQL `MAX`. -/
theorem listMaxInt_cons (x : Int) (xs : List Int) :
    listMaxInt (x :: xs)
      = some (match listMaxInt xs with | none => x | some m => max x m) := by
  simp only [listMaxInt]
  cases listMaxInt xs <;> rfl

/-- SQL `MAX` is `NULL` exactly on an empty value list. -/
theorem listMaxInt_eq_none (l : List Int) : listMaxInt l = none ↔ l = [] := by
  cases l with
  | nil => simp [listMaxInt]
  | cons x xs =>
    constructor
    · intro h
      rw [listMaxInt_cons] at h
      cases h
    · intro h
      cases h

/-- SQL `MAX` bounds every collected value. -/
theorem listMaxInt_le : ∀ (l : List Int) (m : Int),
    listMaxInt l = some m → ∀ y ∈ l, y ≤ m := by
  intro l
  induction l with
  | nil => intro m _ y hy; simp at hy
  | cons x xs ih =>
    intro m h y hy
    rw [listMaxInt_cons] at h
    cases hxs : listMaxInt xs with
    | none =>
      rw [hxs] at h
      cases h
      have hnil : xs = [] := (listMaxInt_eq_none xs).1 hxs
      subst hnil
      simp only [List.mem_singleton] at hy
      exact le_of_eq hy
    | some mx =>
      rw [hxs] at h
      cases h
      rcases List.mem_cons.1 hy with rfl | hy2
      . exact le_max_left y mx
      . exact le_trans (ih mx hxs y hy2) (le_max_right x mx)

/-- SQL `MAX` of a non-empty value list exists. -/
theorem listMaxInt_isSome : ∀ (l : List Int), l ≠ [] →
    (listMaxInt l).isSome = true := by
  intro l hne
  cases l with
  | nil => exact absurd rfl hne
  | cons x xs => rw [listMaxInt_cons]; rfl

/-- A member bounding every collected value is the SQL `MAX`. -/
theorem listMaxInt_eq_some : ∀ (l : List Int) (m : Int),
    m ∈ l → (∀ y ∈ l, y ≤ m) → listMaxInt l = some m := by
  intro l
  induction l with
  | nil => intro m hm; simp at hm
  | cons x xs ih =>
    intro m hm hub
    rw [listMaxInt_cons]
    cases hxs : listMaxInt xs with
    | none =>
      have hnil : xs = [] := (listMaxInt_eq_none xs).1 hxs
      subst hnil
      simp only [List.mem_singleton] at hm
      rw [hm]
    | some mx =>
      have hxle : x ≤ m := hub x (List.mem_cons_self x xs)
      have hmxm : mx ≤ m :=
        hub mx (List.mem_cons_of_mem x (listMaxInt_mem xs mx hxs))
      rcases List.mem_cons.1 hm with rfl | hm2
      . show some (max m mx) = some m
        rw [max_eq_left hmxm]
      . have hmmx : m ≤ mx := listMaxInt_le xs mx hxs m hm2
        have heq : m = mx := le_antisymm hmmx hmxm
        subst heq
        show some (max x m) = some m
        rw [max_eq_right hxle]

/-- A statement's effect on the store the connection currently sees. -/
theorem applyStmt_cur (c : Conn) (f : CatalogDB → CatalogDB) :
    (c.applyStmt f).cur = f c.cur := by
  cases htxn : c.txn <;> simp [Conn.applyStmt, Conn.cur, htxn]

/-- `COMMIT` publishes the store the connection currently sees. -/
theorem commitTxn_committed (c : Conn) :
    c.commitTxn.committed = c.cur := rfl

/-- Any component present after the streaming insert loop was present before
it or is the conversion of one of the streamed source rows. -/
theorem insertSourceRows_components (now : Int) (inc : Bool) :
    ∀ (rows : List SourceRow) (fa : Option Nat) (c : Conn) (t : List String)
      (out : List String × Conn),
      insertSourceRows now inc rows fa c t = .ok out →
      ∀ comp ∈ out.2.cur.components,
        comp ∈ c.cur.components ∨ ∃ s ∈ rows, comp = convertRow now s := by
  intro rows
  induction rows with
  | nil =>
    intro fa c t out hok comp hmem
    match fa, hok with
    | some 0, hok => simp [insertSourceRows] at hok
    | none, hok =>
      simp only [insertSourceRows] at hok
      cases hok
      exact Or.inl hmem
    | some (n + 1), hok =>
      simp only [insertSourceRows] at hok
      cases hok
      exact Or.inl hmem
  | cons r rest ih =>
    intro fa c t out hok comp hmem
    have step : ∀ (fa2 : Option Nat),
        insertSourceRows now inc rest fa2
          (c.applyStmt (fun db => { db with components := upsertComponent db.components (convertRow now r) }))
          (if inc && !t.contains (convertRow now r).lcsc
            then t ++ [(convertRow now r).lcsc] else t) = .ok out →
        comp ∈ out.2.cur.components →
        comp ∈ c.cur.components ∨ ∃ s ∈ r :: rest, comp = convertRow now s := by
      intro fa2 hok2 hmem2
      rcases ih fa2 _ _ out hok2 comp hmem2 with hin | ⟨s, hs, hconv⟩
      · rw [applyStmt_cur] at hin
        simp only [upsertComponent, List.mem_append, List.mem_filter,
          List.mem_singleton] at hin
        rcases hin with ⟨hin, _⟩ | rfl
        · exact Or.inl hin
        · exact Or.inr ⟨r, List.mem_cons_self r rest, rfl⟩
      · exact Or.inr ⟨s, List.mem_cons_of_mem r hs, hconv⟩
    match fa, hok with
    | some 0, hok => simp [insertSourceRows] at hok
    | none, hok =>
      simp only [insertSourceRows] at hok
      exact step none hok hmem
    | some (n + 1), hok =>
      simp only [insertSourceRows, Option.map] at hok
      exact step (some n) (by simpa using hok) hmem

/-- When some source row passes the epoch filter, the unfiltered
`MAX(last_update)` is attained inside the filtered set, exceeds the
watermark, and equals the filtered set's maximum. -/
theorem sourceMax_eq_filtered_max (src : List SourceRow) (t : Int)
    (hne : src.filter (sinceCond t) ≠ []) :
    ∃ m, listMaxInt (src.filterMap (·.last_update)) = some m
      ∧ listMaxInt ((src.filter (sinceCond t)).filterMap (·.last_update))
          = some m
      ∧ t < m := by
  have hex : ∃ s ∈ src, sinceCond t s = true := by
    by_contra hc
    push_neg at hc
    exact hne (List.filter_eq_nil_iff.2 (by intro a ha; simpa using hc a ha))
  rcases hex with ⟨s, hs, hcond⟩
  rcases hl : s.last_update with _ | l
  · rw [sinceCond, hl] at hcond; cases hcond
  · have hlt : t < l := by
      rw [sinceCond, hl] at hcond
      exact of_decide_eq_true hcond
    have hlmem : l ∈ src.filterMap (·.last_update) :=
      List.mem_filterMap.2 ⟨s, hs, hl⟩
    have hnonnil : src.filterMap (·.last_update) ≠ [] := by
      intro hnil
      rw [hnil] at hlmem
      cases hlmem
    rcases hm : listMaxInt (src.filterMap (·.last_update)) with _ | m
    · rw [(listMaxInt_eq_none _).1 hm] at hlmem
      cases hlmem
    · have hmm := listMaxInt_mem _ _ hm
      have hub := listMaxInt_le _ _ hm
      have htm : t < m := lt_of_lt_of_le hlt (hub l hlmem)
      rcases List.mem_filterMap.1 hmm with ⟨s2, hs2, hl2⟩
      have hcond2 : sinceCond t s2 = true := by
        rw [sinceCond, hl2]
        exact decide_eq_true htm
      have hmem2 : m ∈ (src.filter (sinceCond t)).filterMap (·.last_update) :=
        List.mem_filterMap.2 ⟨s2, List.mem_filter.2 ⟨hs2, hcond2⟩, hl2⟩
      refine ⟨m, hm, ?_, htm⟩
      apply listMaxInt_eq_some _ _ hmem2
      intro y hy
      rcases List.mem_filterMap.1 hy with ⟨s3, hs3, hl3⟩
      exact hub y (List.mem_filterMap.2 ⟨s3, (List.mem_filter.1 hs3).1, hl3⟩)

/-- Without an injected failure the streaming insert loop completes. -/
theorem insertSourceRows_none_ok (now : Int) (inc : Bool) :
    ∀ (rows : List SourceRow) (c : Conn) (t : List String),
      ∃ out, insertSourceRows now inc rows none c t = .ok out := by
  intro rows
  induction rows with
  | nil => intro c t; exact ⟨(t, c), rfl⟩
  | cons r rest ih =>
    intro c t
    rcases ih (c.applyStmt (fun db => { db with components := upsertComponent db.components (convertRow now r) }))
      (if inc && !t.contains (convertRow now r).lcsc
        then t ++ [(convertRow now r).lcsc] else t) with ⟨out, hout⟩
    exact ⟨out, by simpa [insertSourceRows] using hout⟩

/-- C4 counterexample — an incremental import whose epoch-filtered source set
is empty (one source row with `last_update = 50`, watermark `T = 100`) is a
no-op on the store, but returns watermark `50` (the unfiltered source
`MAX(last_update)`), not the unchanged watermark `100` the claim requires. -/
theorem import_incremental_stale_watermark_counterexample :
    [staleSrcRow].filter (sinceCond 100) = []
      ∧ import_yaqwsx_cache [staleSrcRow] true (some 100) 777 none emptyIdleConn
          = .ok (⟨0, 0, some 50⟩, emptyIdleConn)
      ∧ (50 : Int) ≠ 100 := by
  refine ⟨by decide, rfl, by decide⟩

/-- C4 amended — incremental import boundary and watermark.  With watermark
`T` (and `T ≥ 0`, as watermarks are epoch values): only source rows with
`last_update > T` are ingested (every catalog row after the run is either a
pre-existing row or the conversion of such a source row); whenever any
source row has `last_update > T`, the returned watermark equals the maximum
`last_update` over that filtered set — the code computes the unfiltered
source `MAX(last_update)`, which then coincides with the filtered maximum;
and when no source row passes the full `WHERE` filter the import is a no-op
on the store that returns the unfiltered source maximum with fallback `T`
(not, in general, `T` itself). -/
theorem import_incremental_watermark (src : List SourceRow)
    (in_stock_only : Bool) (t now : Int) (conn : Conn)
    (ht : 0 ≤ t) (r : ImportResult) (c' : Conn)
    (h : import_yaqwsx_cache src in_stock_only (some t) now none conn
      = .ok (r, c')) :
    (∀ comp ∈ c'.committed.components,
        comp ∈ conn.committed.components
          ∨ ∃ s ∈ src, sinceCond t s = true ∧ comp = convertRow now s)
      ∧ (src.filter (sinceCond t) ≠ [] →
          r.maxLastUpdate
            = listMaxInt ((src.filter (sinceCond t)).filterMap (·.last_update)))
      ∧ ((src.filter (rowMatches in_stock_only (some t))).length = 0 →
          c' = conn
            ∧ r.maxLastUpdate
              = some (pyOrInt (listMaxInt (src.filterMap (·.last_update))) t)) := by
  by_cases htot : (src.filter (rowMatches in_stock_only (some t))).length = 0
  · simp only [import_yaqwsx_cache, htot, if_pos, Except.ok.injEq,
      Prod.mk.injEq] at h
    rcases h with ⟨hr, hc⟩
    subst hc
    refine ⟨fun comp hmem => Or.inl hmem, ?_, fun _ => ⟨rfl, hr.symm ▸ rfl⟩⟩
    intro hne
    rcases sourceMax_eq_filtered_max src t hne with ⟨m, hG, hF, htm⟩
    have hm0 : ¬m = 0 := by omega
    rw [← hr, hF, hG]
    simp [pyOrInt, hm0]
  · rcases insertSourceRows_none_ok now true
      (src.filter (rowMatches in_stock_only (some t))) conn.beginTxn []
      with ⟨out, hout⟩
    simp only [import_yaqwsx_cache, htot, if_neg, if_false, hout,
      Except.ok.injEq, Prod.mk.injEq] at h
    have hr := h.1
    have hc := h.2
    refine ⟨?_, ?_, fun h0 => absurd h0 htot⟩
    · intro comp hmem
      rw [← hc] at hmem
      have hco : ((out.2.applyStmt (ftsSelectiveRebuild out.1)).commitTxn).committed.components
          = out.2.cur.components := by
        rw [commitTxn_committed, applyStmt_cur]
        simp [ftsSelectiveRebuild]
      rw [hco] at hmem
      rcases insertSourceRows_components now true _ none conn.beginTxn [] out
          hout comp hmem with hin | ⟨s, hs, hconv⟩
      · exact Or.inl hin
      · rcases List.mem_filter.1 hs with ⟨hsrc, hmatch⟩
        have hsince : sinceCond t s = true := by
          simp only [rowMatches, Bool.and_eq_true] at hmatch
          exact hmatch.2
        exact Or.inr ⟨s, hsrc, hsince, hconv⟩
    · intro hne
      rcases sourceMax_eq_filtered_max src t hne with ⟨m, hG, hF, _⟩
      rw [← hr]
      show listMaxInt (src.filterMap (·.last_update))
        = listMaxInt ((src.filter (sinceCond t)).filterMap (·.last_update))
      rw [hF, hG]

/-- Witness for the amended C4 at a concrete incremental run: watermark 100,
one ingested row (`last_update = 110`, in stock) and one out-of-stock row
carrying the filtered maximum `last_update = 120`; the returned watermark is
the filtered set's maximum, 120. -/
theorem import_incremental_watermark_witness :
    (0 : Int) ≤ 100
      ∧ [wmRowA, wmRowB].filter (sinceCond 100) ≠ []
      ∧ (⟨1, 1, some 120⟩ : ImportResult).maxLastUpdate
          = listMaxInt (([wmRowA, wmRowB].filter
              (sinceCond 100)).filterMap (·.last_update)) := by
  refine ⟨by decide, by decide, ?_⟩
  exact (import_incremental_watermark [wmRowA, wmRowB] true 100 777
    emptyIdleConn (by decide) ⟨1, 1, some 120⟩
    ⟨⟨[⟨"C7", "c", "s", "m", "p", 2, "man", "Basic", "d", "", 9,
        .list [], 110⟩],
      [⟨"C7", "d", "m", "man"⟩], true⟩, none⟩ rfl).2.1 (by decide)

/-- An empty download plan carries zero planned bytes. -/
theorem plan_total_zero_of_no_downloads (parts : List ArchivePartState)
    (h : (plan_incremental_download parts).partsToDownload = []) :
    (plan_incremental_download parts).totalDownloadBytes = 0 := by
  rw [plan_totalBytes_eq]
  rw [plan_partsToDownload_eq] at h
  rw [List.map_eq_nil_iff] at h
  rw [h]
  rfl

/-- C6 — disk-space preflight.  If the download directory's free bytes are
strictly below the planned-download bytes, the run aborts with a disk-space
error carrying the required and available megabytes and performs no event at
all (no byte of any planned part is written, no manifest operation); and if
the download-directory check passes but the extraction directory's free
bytes are strictly below the estimated expanded-catalog bytes, the run
aborts the same way, again before any write. -/
theorem download_disk_space_guard (env : DlEnv) (nowTs : Int)
    (hfree : 0 ≤ env.freeTargetBytes) :
    (env.freeTargetBytes
        < (plan_incremental_download env.archiveParts).totalDownloadBytes →
      (download_yaqwsx_cache env nowTs).result
          = .error (.diskSpace
              (mbTenths (plan_incremental_download
                env.archiveParts).totalDownloadBytes)
              (mbTenths env.freeTargetBytes))
        ∧ (download_yaqwsx_cache env nowTs).events = [])
      ∧ ((plan_incremental_download env.archiveParts).partsToDownload ≠ [] →
        (plan_incremental_download env.archiveParts).totalDownloadBytes
            ≤ env.freeTargetBytes →
        env.freeExtractBytes
            < Int.tdiv (env.estimatedDatabaseSizeMBTenths * 1048576) 10 →
        (download_yaqwsx_cache env nowTs).result
            = .error (.diskSpace
                (mbTenths (Int.tdiv (env.estimatedDatabaseSizeMBTenths * 1048576) 10))
                (mbTenths env.freeExtractBytes))
          ∧ (download_yaqwsx_cache env nowTs).events = []) := by
  constructor
  · intro hlt
    have hne : (plan_incremental_download env.archiveParts).partsToDownload
        ≠ [] := by
      intro hnil
      rw [plan_total_zero_of_no_downloads env.archiveParts hnil] at hlt
      omega
    have hlen : ¬((plan_incremental_download
        env.archiveParts).partsToDownload.length = 0) := by
      simpa [List.length_eq_zero] using hne
    simp only [download_yaqwsx_cache, hlen, decide_False, Bool.false_and,
      if_false, if_pos hlt]
    exact ⟨rfl, rfl⟩
  · intro hne hge hlt
    have hlen : ¬((plan_incremental_download
        env.archiveParts).partsToDownload.length = 0) := by
      simpa [List.length_eq_zero] using hne
    simp only [download_yaqwsx_cache, hlen, decide_False, Bool.false_and,
      if_false, if_neg (not_lt.2 hge), if_pos hlt]
    exact ⟨rfl, rfl⟩

/-- Witness for C6: one 1 MiB changed part against 100 free bytes aborts
with the disk-space error and writes nothing. -/
theorem download_disk_space_guard_witness :
    (0 : Int) ≤ 100
      ∧ (100 : Int) < (plan_incremental_download
          lowSpaceEnv.archiveParts).totalDownloadBytes
      ∧ (download_yaqwsx_cache lowSpaceEnv 0).result
          = .error (.diskSpace
              (mbTenths (plan_incremental_download
                lowSpaceEnv.archiveParts).totalDownloadBytes)
              (mbTenths 100))
      ∧ (download_yaqwsx_cache lowSpaceEnv 0).events = [] := by
  refine ⟨by decide, by decide, ?_, ?_⟩
  · exact ((download_disk_space_guard lowSpaceEnv 0 (by decide)).1
      (by decide)).1
  · exact ((download_disk_space_guard lowSpaceEnv 0 (by decide)).1
      (by decide)).2

/-- The streaming loop emits only part-write events, whether it completes or
raises. -/
theorem downloadLoopRun_events_writes (env : DlEnv) :
    ∀ (parts : List String),
      (∀ evs, downloadLoopRun env parts = .ok evs →
        ∀ e ∈ evs, ∃ fn b, e = DlEvent.wrotePart fn b)
        ∧ (∀ g evs, downloadLoopRun env parts = .error (g, evs) →
          ∀ e ∈ evs, ∃ fn b, e = DlEvent.wrotePart fn b) := by
  intro parts
  induction parts with
  | nil =>
    constructor
    · intro evs hok e he
      simp only [downloadLoopRun] at hok
      cases hok
      cases he
    · intro g evs herr
      simp [downloadLoopRun] at herr
  | cons f rest ih =>
    constructor
    · intro evs hok e he
      simp only [downloadLoopRun] at hok
      by_cases hf : env.netFails.contains f
      · rw [if_pos hf] at hok; cases hok
      · rw [if_neg hf] at hok
        cases hrec : downloadLoopRun env rest with
        | ok evs2 =>
          rw [hrec] at hok
          cases hok
          rcases List.mem_cons.1 he with rfl | he2
          · exact ⟨f, _, rfl⟩
          · exact ih.1 evs2 hrec e he2
        | error ge =>
          rw [hrec] at hok
          cases hok
    · intro g evs herr e he
      simp only [downloadLoopRun] at herr
      by_cases hf : env.netFails.contains f
      · rw [if_pos hf] at herr
        cases herr
        cases he
      · rw [if_neg hf] at herr
        cases hrec : downloadLoopRun env rest with
        | ok evs2 => rw [hrec] at herr; cases herr
        | error ge =>
          rw [hrec] at herr
          cases herr
          rcases List.mem_cons.1 he with rfl | he2
          · exact ⟨f, _, rfl⟩
          · exact ih.2 ge.1 ge.2 (by rw [hrec]) e he2

/-- Crash safety of `_save_manifest`: at every crash point — before the
temp-file write, during it, between write and rename, or after the rename —
the manifest path holds either its prior content or the complete new
manifest, never a truncated rendering. -/
theorem save_manifest_crash_safe (m : CacheManifest) (fs : FsMap) (k : Nat)
    (j : Option Nat) :
    crashState fs (save_manifest_ops m) k j manifestPath = fs manifestPath
      ∨ crashState fs (save_manifest_ops m) k j manifestPath
        = some (.json m) := by
  have hne : ¬(manifestPath = tmpManifestPath) := by decide
  match k, j with
  | 0, none =>
    left
    rfl
  | 0, some n =>
    left
    simp [crashState, save_manifest_ops, applyFsOps, applyFsOp, hne]
  | 1, none =>
    left
    simp [crashState, save_manifest_ops, applyFsOps, applyFsOp, hne]
  | 1, some n =>
    left
    simp [crashState, save_manifest_ops, applyFsOps, applyFsOp, hne]
  | (n + 2), j =>
    right
    have htake : (save_manifest_ops m).take (n + 2) = save_manifest_ops m := by
      simp [save_manifest_ops]
    have hdrop : (save_manifest_ops m).drop (n + 2) = [] := by
      simp [save_manifest_ops]
    cases j with
    | none =>
      simp [crashState, htake, hdrop, save_manifest_ops, applyFsOps,
        applyFsOp, hne]
    | some n2 =>
      simp [crashState, htake, hdrop, save_manifest_ops, applyFsOps,
        applyFsOp, hne]

/-- C7 — manifest rewrite discipline.  In every failing run (disk-space
abort or a failed part transfer) the manifest is not touched: the run
performs no manifest filesystem operation.  In every successful non-trivial
run, the manifest is rewritten only after all planned part writes, by
writing the complete JSON to the temporary path and atomically replacing the
manifest file — so at any crash point the manifest path holds the prior
content or the complete new manifest — and the written manifest's file map
has an entry for every archive part of the current epoch, not only the parts
just downloaded. -/
theorem manifest_saved_atomically_and_complete (env : DlEnv) (nowTs : Int) :
    (∀ e, (download_yaqwsx_cache env nowTs).result = .error e →
        manifestOpsOf (download_yaqwsx_cache env nowTs) = [])
      ∧ (∀ r, (download_yaqwsx_cache env nowTs).result = .ok r →
          r.noUpdate = false →
          ∃ m, (download_yaqwsx_cache env nowTs).finalManifest = some m
            ∧ (∃ evs, (∀ e ∈ evs, ∃ fn b, e = DlEvent.wrotePart fn b)
                ∧ (download_yaqwsx_cache env nowTs).events
                    = evs ++ (save_manifest_ops m).map DlEvent.fsManifest)
            ∧ (∀ p ∈ env.archiveParts, ∃ meta, (p.filename, meta) ∈ m.files)
            ∧ (∀ fs k j,
                crashState fs (save_manifest_ops m) k j manifestPath
                    = fs manifestPath
                  ∨ crashState fs (save_manifest_ops m) k j manifestPath
                    = some (.json m))) := by
  by_cases h1 : ((plan_incremental_download
        env.archiveParts).partsToDownload.length = 0
      && (mbTenths (plan_incremental_download
        env.archiveParts).totalDownloadBytes == 0)) = true
  · constructor
    · intro e he
      simp only [download_yaqwsx_cache, if_pos h1] at he
      cases he
    · intro r hok hnoupd
      simp only [download_yaqwsx_cache, if_pos h1, Except.ok.injEq] at hok
      rw [← hok] at hnoupd
      cases hnoupd
  · by_cases h2 : env.freeTargetBytes
        < (plan_incremental_download env.archiveParts).totalDownloadBytes
    · constructor
      · intro e _
        simp only [manifestOpsOf, download_yaqwsx_cache, if_neg h1, if_pos h2]
        rfl
      · intro r hok
        simp only [download_yaqwsx_cache, if_neg h1, if_pos h2] at hok
        cases hok
    · by_cases h3 : env.freeExtractBytes
          < Int.tdiv (env.estimatedDatabaseSizeMBTenths * 1048576) 10
      · constructor
        · intro e _
          simp only [manifestOpsOf, download_yaqwsx_cache, if_neg h1,
            if_neg h2, if_pos h3]
          rfl
        · intro r hok
          simp only [download_yaqwsx_cache, if_neg h1, if_neg h2,
            if_pos h3] at hok
          cases hok
      · cases hloop : downloadLoopRun env (plan_incremental_download
            env.archiveParts).partsToDownload with
        | error ge =>
          constructor
          · intro e _
            have hwrites := (downloadLoopRun_events_writes env
              (plan_incremental_download env.archiveParts).partsToDownload).2
              ge.1 ge.2 (by rw [hloop])
            simp only [manifestOpsOf, download_yaqwsx_cache, if_neg h1,
              if_neg h2, if_neg h3, hloop]
            rw [List.filterMap_eq_nil_iff]
            intro a ha
            rcases hwrites a ha with ⟨fn, b, rfl⟩
            rfl
          · intro r hok
            simp only [download_yaqwsx_cache, if_neg h1, if_neg h2, if_neg h3,
              hloop] at hok
            cases hok
        | ok evs =>
          constructor
          · intro e he
            simp only [download_yaqwsx_cache, if_neg h1, if_neg h2, if_neg h3,
              hloop] at he
            cases he
          · intro r hok _
            refine ⟨finalManifestOf env nowTs, ?_, ?_, ?_, ?_⟩
            · simp only [download_yaqwsx_cache, if_neg h1, if_neg h2,
                if_neg h3, hloop]
            · refine ⟨evs, (downloadLoopRun_events_writes env
                (plan_incremental_download
                  env.archiveParts).partsToDownload).1 evs hloop, ?_⟩
              simp only [download_yaqwsx_cache, if_neg h1, if_neg h2,
                if_neg h3, hloop]
            · intro p hp
              exact ⟨⟨pyOrInt p.remote.size 0, p.remote.etag,
                p.remote.lastModified⟩,
                List.mem_map.2 ⟨p, hp, rfl⟩⟩
            · intro fs k j
              exact save_manifest_crash_safe (finalManifestOf env nowTs) fs k j

/-- Witness for C7 at a concrete successful run: one changed 1 MiB part,
ample space; the run succeeds and the written manifest has an entry for the
part. -/
theorem manifest_saved_witness :
    (download_yaqwsx_cache oneChangedEnv 5).result
        = .ok ⟨1048576, 1048576, 1, 0, ["cache.zip"], false⟩
      ∧ ∃ m, (download_yaqwsx_cache oneChangedEnv 5).finalManifest = some m
        ∧ ∃ meta, ("cache.zip", meta) ∈ m.files := by
  have hres : (download_yaqwsx_cache oneChangedEnv 5).result
      = .ok ⟨1048576, 1048576, 1, 0, ["cache.zip"], false⟩ := by decide
  refine ⟨hres, ?_⟩
  rcases (manifest_saved_atomically_and_complete oneChangedEnv 5).2
      ⟨1048576, 1048576, 1, 0, ["cache.zip"], false⟩ hres rfl
    with ⟨m, hm, _, hcomp, _⟩
  exact ⟨m, hm, hcomp ⟨"cache.zip", none,
    ⟨some 1048576, some "\"e1\"", none⟩, none⟩ (List.mem_singleton.2 rfl)⟩

/-- C8 counterexample — `suggest_alternatives` passes the reference part's
SUBCATEGORY to the `category LIKE` filter, so it returns a part
(`altOtherSubcat`) whose subcategory `B` differs from the reference's `A`;
and it ranks by the FIRST listed price, not the lowest: `altSingle3` (only
listed price 3) precedes `altFirstHigh` (lowest listed price 1, listed
first-price 5), violating ascending-lowest-price order. -/
theorem suggest_alternatives_counterexample :
    get_part_info altDb "C1" = some altRefPart
      ∧ (suggest_alternatives altDb "C1" 5).map (·.lcsc) = ["C4", "C3", "C2"]
      ∧ altOtherSubcat ∈ suggest_alternatives altDb "C1" 5
      ∧ altOtherSubcat.subcategory ≠ altRefPart.subcategory
      ∧ (listedPrices altFirstHigh).min? = some 1
      ∧ (listedPrices altSingle3).min? = some 3
      ∧ (1 : ℚ) < 3 := by
  refine ⟨by decide, by decide, by decide, by decide, by decide, by decide,
    by decide⟩

/-- Membership across a stable insertion. -/
theorem mem_stableInsert {α : Type} (le : α → α → Bool) (x p : α) :
    ∀ (l : List α), p ∈ stableInsert le x l ↔ p = x ∨ p ∈ l := by
  intro l
  induction l with
  | nil => simp [stableInsert]
  | cons y ys ih =>
    by_cases hxy : le x y = true
    · rw [stableInsert, if_pos hxy]
      exact List.mem_cons
    · rw [stableInsert, if_neg hxy]
      simp only [List.mem_cons, ih]
      tauto

/-- Membership across the stable sort. -/
theorem mem_pySort {α : Type} (le : α → α → Bool) (p : α) :
    ∀ (l : List α), p ∈ pySort le l ↔ p ∈ l := by
  intro l
  induction l with
  | nil => simp [pySort]
  | cons y ys ih =>
    rw [pySort, mem_stableInsert]
    simp [ih]

/-- Stable insertion into a sorted list is sorted, for a total transitive
comparison. -/
theorem stableInsert_pairwise {α : Type} (le : α → α → Bool)
    (htot : ∀ a b, le a b = true ∨ le b a = true)
    (htrans : ∀ a b c, le a b = true → le b c = true → le a c = true)
    (x : α) :
    ∀ (l : List α), l.Pairwise (fun a b => le a b = true) →
      (stableInsert le x l).Pairwise (fun a b => le a b = true) := by
  intro l
  induction l with
  | nil =>
    intro _
    simp [stableInsert]
  | cons y ys ih =>
    intro hl
    rw [List.pairwise_cons] at hl
    by_cases hxy : le x y = true
    · rw [stableInsert, if_pos hxy]
      refine List.Pairwise.cons ?_ (List.Pairwise.cons hl.1 hl.2)
      intro z hz
      rcases List.mem_cons.1 hz with rfl | hz2
      · exact hxy
      · exact htrans x y z hxy (hl.1 z hz2)
    · rw [stableInsert, if_neg hxy]
      have hyx : le y x = true := (htot x y).resolve_left hxy
      refine List.Pairwise.cons ?_ (ih hl.2)
      intro z hz
      rcases (mem_stableInsert le x z ys).1 hz with rfl | hz2
      · exact hyx
      · exact hl.1 z hz2

/-- The stable sort is sorted, for a total transitive comparison. -/
theorem pySort_pairwise {α : Type} (le : α → α → Bool)
    (htot : ∀ a b, le a b = true ∨ le b a = true)
    (htrans : ∀ a b c, le a b = true → le b c = true → le a c = true) :
    ∀ (l : List α), (pySort le l).Pairwise (fun a b => le a b = true) := by
  intro l
  induction l with
  | nil => exact List.Pairwise.nil
  | cons y ys ih => exact stableInsert_pairwise le htot htrans y _ ih

/-- The alternatives comparison is total. -/
theorem altLe_total (p q : Component) :
    altLe p q = true ∨ altLe q p = true := by
  unfold altLe sortKeyLe
  rcases lt_trichotomy (altSortKey p).1 (altSortKey q).1 with h | h | h
  · left; simp [h]
  · rcases lt_trichotomy (altSortKey p).2.1 (altSortKey q).2.1 with h2 | h2 | h2
    · left; simp [h, h2]
    · rcases le_total (altSortKey p).2.2 (altSortKey q).2.2 with h3 | h3
      · left; simp [h, h2, h3]
      · right; simp [h.symm, h2.symm, h3]
    · right; simp [h.symm, h2]
  · right; simp [h]

/-- The alternatives comparison is transitive. -/
theorem altLe_trans (p q r : Component)
    (hpq : altLe p q = true) (hqr : altLe q r = true) :
    altLe p r = true := by
  unfold altLe sortKeyLe at hpq hqr ⊢
  simp only [Bool.or_eq_true, Bool.and_eq_true, decide_eq_true_eq,
    beq_iff_eq] at hpq hqr ⊢
  rcases hpq with h1 | ⟨h1, h2⟩
  · rcases hqr with g1 | ⟨g1, _⟩
    · exact Or.inl (lt_trans h1 g1)
    · exact Or.inl (lt_of_lt_of_eq h1 g1)
  · rcases hqr with g1 | ⟨g1, g2⟩
    · exact Or.inl (lt_of_eq_of_lt h1 g1)
    · refine Or.inr ⟨h1.trans g1, ?_⟩
      rcases h2 with h2 | ⟨h2, h3⟩
      · rcases g2 with g2 | ⟨g2, _⟩
        · exact Or.inl (lt_trans h2 g2)
        · exact Or.inl (lt_of_lt_of_eq h2 g2)
      · rcases g2 with g2 | ⟨g2, g3⟩
        · exact Or.inl (lt_of_eq_of_lt h2 g2)
        · exact Or.inr ⟨h2.trans g2, le_trans h3 g3⟩

/-- `LIMIT` only drops rows. -/
theorem mem_takeLimit (n : Int) (rows : List Component) (p : Component)
    (h : p ∈ takeLimit n rows) : p ∈ rows := by
  unfold takeLimit at h
  by_cases hn : n < 0
  · rwa [if_pos hn] at h
  · rw [if_neg hn] at h
    exact List.take_subset _ _ h

/-- C8 amended — alternative suggestion, as the code computes it.  Given a
reference key present in the store, every suggested part satisfies the
search's actual restriction — its CATEGORY contains the reference part's
subcategory as a substring (SQL `LIKE`, unless that subcategory is empty and
the filter is skipped), its package contains the reference's package as a
substring, it is in stock — and is never the reference key itself; and the
result is ordered by the tie-break chain Basic-tier first, then ascending
FIRST listed price, then descending stock. -/
theorem suggest_alternatives_filters_and_ordering
    (db : List Component) (lcsc_number : String) (limit : Nat)
    (ref : Component) (href : get_part_info db lcsc_number = some ref) :
    (∀ p ∈ suggest_alternatives db lcsc_number limit,
        optLikeFilter (some ref.subcategory) p.category = true
          ∧ optLikeFilter (some ref.package) p.package = true
          ∧ 0 < p.stock
          ∧ p.lcsc ≠ lcsc_number)
      ∧ (suggest_alternatives db lcsc_number limit).Pairwise
          (fun a b => altLe a b = true) := by
  have hmain : suggest_alternatives db lcsc_number limit
      = (pySort altLe ((search_parts noFts db
          ⟨none, some ref.subcategory, some ref.package, none, none, true,
            ((3 * limit : Nat) : Int)⟩).filter
              (fun p => p.lcsc != lcsc_number))).take limit := by
    simp [suggest_alternatives, href]
  constructor
  · intro p hp
    rw [hmain] at hp
    have hp2 := List.take_subset _ _ hp
    rw [mem_pySort] at hp2
    rcases List.mem_filter.1 hp2 with ⟨hsearch, hbne⟩
    have hsearch2 : p ∈ db.filter (rowPassesFilters none
        ⟨none, some ref.subcategory, some ref.package, none, none, true,
          ((3 * limit : Nat) : Int)⟩) :=
      mem_takeLimit _ _ p hsearch
    have hpass := (List.mem_filter.1 hsearch2).2
    simp only [rowPassesFilters, Bool.and_eq_true, Bool.not_true,
      Bool.false_or, decide_eq_true_eq] at hpass
    refine ⟨by tauto, by tauto, by tauto, ?_⟩
    simpa using hbne
  · rw [hmain]
    exact (pySort_pairwise altLe altLe_total altLe_trans _).sublist
      (List.take_sublist _ _)

/-- Witness for the amended C8 at the concrete alternatives store: the
reference key is present, no suggestion is the reference itself, and the
result is sorted by the code's tie-break chain. -/
theorem suggest_alternatives_filters_and_ordering_witness :
    get_part_info altDb "C1" = some altRefPart
      ∧ (∀ p ∈ suggest_alternatives altDb "C1" 5, p.lcsc ≠ "C1")
      ∧ (suggest_alternatives altDb "C1" 5).Pairwise
          (fun a b => altLe a b = true) := by
  refine ⟨by decide, ?_, ?_⟩
  · intro p hp
    exact ((suggest_alternatives_filters_and_ordering altDb "C1" 5 altRefPart
      (by decide)).1 p hp).2.2.2
  · exact (suggest_alternatives_filters_and_ordering altDb "C1" 5 altRefPart
      (by decide)).2

/-- Decimal digit characters are distinct. -/
theorem digitCh_inj : ∀ a, a < 10 → ∀ b, b < 10 → digitCh a = digitCh b →
    a = b := by decide

/-- No decimal digit character is the minus sign. -/
theorem digitCh_ne_dash : ∀ a, a < 10 → digitCh a ≠ '-' := by decide

/-- Rendering digit lists is injective. -/
theorem map_digitCh_inj : ∀ (l1 l2 : List Nat), (∀ d ∈ l1, d < 10) →
    (∀ d ∈ l2, d < 10) → l1.map digitCh = l2.map digitCh → l1 = l2 := by
  intro l1
  induction l1 with
  | nil =>
    intro l2 _ _ h
    cases l2 with
    | nil => rfl
    | cons y ys => simp at h
  | cons x xs ih =>
    intro l2 h1 h2 h
    cases l2 with
    | nil => simp at h
    | cons y ys =>
      simp only [List.map_cons, List.cons.injEq] at h
      have hx : x = y := digitCh_inj x (h1 x (List.mem_cons_self x xs)) y
        (h2 y (List.mem_cons_self y ys)) h.1
      rw [hx, ih ys (fun d hd => h1 d (List.mem_cons_of_mem x hd))
        (fun d hd => h2 d (List.mem_cons_of_mem y hd)) h.2]

/-- `Nat.ofDigits` of the single digit 0 is 0. -/
theorem ofDigits_single_zero : Nat.ofDigits 10 [0] = 0 := by
  simp [Nat.ofDigits]

/-- A positive number never renders as `"0"`. -/
theorem natDecimal_pos_ne_zero_render (b : Nat) (hb : b ≠ 0) :
    natDecimal b ≠ "0" := by
  intro h
  rw [natDecimal, if_neg hb] at h
  have hdata : ((Nat.digits 10 b).reverse.map digitCh) = ['0'] :=
    congrArg String.data h
  cases hrev : (Nat.digits 10 b).reverse with
  | nil => rw [hrev] at hdata; simp at hdata
  | cons d rest =>
    rw [hrev] at hdata
    simp only [List.map_cons, List.cons.injEq] at hdata
    have hrest : rest = [] := by
      have := hdata.2
      simpa using this
    have hdigits : Nat.digits 10 b = [d] := by
      have : (Nat.digits 10 b).reverse.reverse = [d] := by
        rw [hrev, hrest]
        rfl
      simpa using this
    have hdmem : d ∈ Nat.digits 10 b := by rw [hdigits]; exact List.mem_singleton.2 rfl
    have hdlt : d < 10 := Nat.digits_lt_base (by norm_num) hdmem
    have hd0 : d = 0 := by
      apply digitCh_inj d hdlt 0 (by norm_num)
      exact hdata.1
    have := Nat.ofDigits_digits 10 b
    rw [hdigits, hd0, ofDigits_single_zero] at this
    exact hb this.symm

/-- Python's decimal rendering of naturals is injective. -/
theorem natDecimal_inj (a b : Nat) (h : natDecimal a = natDecimal b) :
    a = b := by
  by_cases ha : a = 0
  · by_cases hb : b = 0
    · rw [ha, hb]
    · subst ha
      rw [show natDecimal 0 = "0" from rfl] at h
      exact absurd h.symm (natDecimal_pos_ne_zero_render b hb)
  · by_cases hb : b = 0
    · subst hb
      rw [show natDecimal 0 = "0" from rfl] at h
      exact absurd h (natDecimal_pos_ne_zero_render a ha)
    · rw [natDecimal, if_neg ha, natDecimal, if_neg hb] at h
      have hdata : ((Nat.digits 10 a).reverse.map digitCh)
          = ((Nat.digits 10 b).reverse.map digitCh) :=
        congrArg String.data h
      have hrev : (Nat.digits 10 a).reverse = (Nat.digits 10 b).reverse := by
        apply map_digitCh_inj
        · intro d hd
          exact Nat.digits_lt_base (by norm_num) (List.mem_reverse.1 hd)
        · intro d hd
          exact Nat.digits_lt_base (by norm_num) (List.mem_reverse.1 hd)
        · exact hdata
      have hdig : Nat.digits 10 a = Nat.digits 10 b :=
        List.reverse_injective hrev
      have := Nat.ofDigits_digits 10 a
      rw [hdig, Nat.ofDigits_digits 10 b] at this
      exact this.symm

/-- The decimal rendering of a natural starts with a digit character. -/
theorem natDecimal_head_digit (n : Nat) :
    ∃ d l, d < 10 ∧ (natDecimal n).data = digitCh d :: l := by
  by_cases hn : n = 0
  · subst hn
    exact ⟨0, [], by norm_num, rfl⟩
  · rw [natDecimal, if_neg hn]
    cases hrev : (Nat.digits 10 n).reverse with
    | nil =>
      exfalso
      have : Nat.digits 10 n = [] := by
        have := congrArg List.reverse hrev
        simpa using this
      exact Nat.digits_ne_nil_iff_ne_zero.2 hn this
    | cons d rest =>
      refine ⟨d, rest.map digitCh, ?_, by rfl⟩
      have hdmem : d ∈ Nat.digits 10 n := by
        have : d ∈ (Nat.digits 10 n).reverse := by
          rw [hrev]; exact List.mem_cons_self d rest
        exact List.mem_reverse.1 this
      exact Nat.digits_lt_base (by norm_num) hdmem

/-- Python's decimal rendering of integers is injective. -/
theorem intDecimal_inj (i j : Int) (h : intDecimal i = intDecimal j) :
    i = j := by
  by_cases hi : i < 0
  · by_cases hj : j < 0
    · rw [intDecimal, if_pos hi, intDecimal, if_pos hj] at h
      have hdata := congrArg String.data h
      rw [String.data_append, String.data_append] at hdata
      have hnat : natDecimal (-i).toNat = natDecimal (-j).toNat :=
        String.ext (List.append_cancel_left hdata)
      have := natDecimal_inj _ _ hnat
      have hi2 : ((-i).toNat : Int) = -i := Int.toNat_of_nonneg (by omega)
      have hj2 : ((-j).toNat : Int) = -j := Int.toNat_of_nonneg (by omega)
      omega
    · exfalso
      rw [intDecimal, if_pos hi, intDecimal, if_neg hj] at h
      rcases natDecimal_head_digit j.toNat with ⟨d, l, hd, hdata⟩
      have hh := congrArg String.data h
      rw [String.data_append, hdata] at hh
      have : '-' = digitCh d := by
        have : ('-' :: ("" ++ natDecimal (-i).toNat).data)
            = digitCh d :: l := by simpa using hh
        exact (List.cons.inj this).1
      exact digitCh_ne_dash d hd this.symm
  · by_cases hj : j < 0
    · exfalso
      rw [intDecimal, if_neg hi, intDecimal, if_pos hj] at h
      rcases natDecimal_head_digit i.toNat with ⟨d, l, hd, hdata⟩
      have hh := congrArg String.data h
      rw [String.data_append, hdata] at hh
      have : digitCh d = '-' := by
        have : digitCh d :: l = '-' :: ("" ++ natDecimal (-j).toNat).data := by
          simpa using hh
        exact (List.cons.inj this).1
      exact digitCh_ne_dash d hd this
    · rw [intDecimal, if_neg hi, intDecimal, if_neg hj] at h
      have := natDecimal_inj _ _ h
      omega

/-- The character-list normal form of the signature input. -/
theorem build_signature_data (m p : String) (t : Int) (n b : String) :
    (build_signature_string m p t n b).data
      = m.data ++ '\n' :: (p.data ++ '\n' :: ((intDecimal t).data
          ++ '\n' :: (n.data ++ '\n' :: (b.data ++ ['\n'])))) := by
  have hnl : ("\n" : String).data = ['\n'] := rfl
  simp [build_signature_string, String.data_append, hnl, List.append_assoc]

/-- C9 — signature determinism and field sensitivity.  The signature input
is exactly `METHOD\nPATH\nTIMESTAMP\nNONCE\nBODY\n`; the signature is
base64 of the HMAC-SHA256 of that input under the secret key; signing equal
tuples with the same secret yields identical signatures; and changing any
single field of the tuple (the others held fixed) changes the signature
input. -/
theorem build_signature_deterministic_and_field_sensitive
    (method path : String) (timestamp : Int) (nonce body secretKey : String) :
    build_signature_string method path timestamp nonce body
        = method ++ "\n" ++ path ++ "\n" ++ intDecimal timestamp ++ "\n"
          ++ nonce ++ "\n" ++ body ++ "\n"
      ∧ jlcpcb_sign secretKey
          (build_signature_string method path timestamp nonce body)
        = base64Encode (hmacSha256 (utf8Bytes secretKey)
            (utf8Bytes (build_signature_string method path timestamp nonce
              body)))
      ∧ (∀ m2 p2 t2 n2 b2, (m2, p2, t2, n2, b2)
            = (method, path, timestamp, nonce, body) →
          jlcpcb_sign secretKey (build_signature_string m2 p2 t2 n2 b2)
            = jlcpcb_sign secretKey
                (build_signature_string method path timestamp nonce body))
      ∧ (∀ m2, m2 ≠ method →
          build_signature_string m2 path timestamp nonce body
            ≠ build_signature_string method path timestamp nonce body)
      ∧ (∀ p2, p2 ≠ path →
          build_signature_string method p2 timestamp nonce body
            ≠ build_signature_string method path timestamp nonce body)
      ∧ (∀ t2, t2 ≠ timestamp →
          build_signature_string method path t2 nonce body
            ≠ build_signature_string method path timestamp nonce body)
      ∧ (∀ n2, n2 ≠ nonce →
          build_signature_string method path timestamp n2 body
            ≠ build_signature_string method path timestamp nonce body)
      ∧ (∀ b2, b2 ≠ body →
          build_signature_string method path timestamp nonce b2
            ≠ build_signature_string method path timestamp nonce body) := by
  refine ⟨rfl, rfl, ?_, ?_, ?_, ?_, ?_, ?_⟩
  · intro m2 p2 t2 n2 b2 heq
    injection heq with h1 hrest
    injection hrest with h2 hrest
    injection hrest with h3 hrest
    injection hrest with h4 h5
    rw [h1, h2, h3, h4, h5]
  · intro m2 hne heq
    apply hne
    have hd := congrArg String.data heq
    rw [build_signature_data, build_signature_data] at hd
    exact String.ext (List.append_cancel_right hd)
  · intro p2 hne heq
    apply hne
    have hd := congrArg String.data heq
    rw [build_signature_data, build_signature_data] at hd
    have h1 := List.append_cancel_left hd
    have h2 := (List.cons.inj h1)
    exact String.ext (List.append_cancel_right h2.2)
  · intro t2 hne heq
    apply hne
    have hd := congrArg String.data heq
    rw [build_signature_data, build_signature_data] at hd
    have h1 := (List.cons.inj (List.append_cancel_left hd)).2
    have h2 := (List.cons.inj (List.append_cancel_left h1)).2
    exact intDecimal_inj t2 timestamp
      (String.ext (List.append_cancel_right h2))
  · intro n2 hne heq
    apply hne
    have hd := congrArg String.data heq
    rw [build_signature_data, build_signature_data] at hd
    have h1 := (List.cons.inj (List.append_cancel_left hd)).2
    have h2 := (List.cons.inj (List.append_cancel_left h1)).2
    have h3 := (List.cons.inj (List.append_cancel_left h2)).2
    exact String.ext (List.append_cancel_right h3)
  · intro b2 hne heq
    apply hne
    have hd := congrArg String.data heq
    rw [build_signature_data, build_signature_data] at hd
    have h1 := (List.cons.inj (List.append_cancel_left hd)).2
    have h2 := (List.cons.inj (List.append_cancel_left h1)).2
    have h3 := (List.cons.inj (List.append_cancel_left h2)).2
    have h4 := (List.cons.inj (List.append_cancel_left h3)).2
    exact String.ext (List.append_cancel_right h4)

/-- Witness for C9 at a concrete tuple: changing the method alone, or the
timestamp alone, changes the signature input. -/
theorem build_signature_field_sensitive_witness :
    build_signature_string "GET" "/api" 1700000000 "nonce123" "{}"
        ≠ build_signature_string "POST" "/api" 1700000000 "nonce123" "{}"
      ∧ build_signature_string "POST" "/api" 1700000001 "nonce123" "{}"
        ≠ build_signature_string "POST" "/api" 1700000000 "nonce123" "{}" := by
  constructor
  · exact (build_signature_deterministic_and_field_sensitive "POST" "/api"
      1700000000 "nonce123" "{}" "secret").2.2.2.1 "GET" (by decide)
  · exact (build_signature_deterministic_and_field_sensitive "POST" "/api"
      1700000000 "nonce123" "{}" "secret").2.2.2.2.2.1 1700000001 (by decide)
